import Mathlib

/-!
Verification development for the agent-orchestration core of the
FinancialAssistantAI repository: the Pydantic → OpenAI schema conversion
engine (`squadai/utils/converter.py`), the resilient structured parser
(`PydanticParserTool` in `converter.py` and `OpenAIToolResponseParser` in
`squadai/utils/parser.py`), the tool-usage ledger (`squadai/tools/tool_usage.py`)
and the agent execution loop (`squadai/agents/agent_executor.py`).

Python values are embedded as the inductive `PyVal` (with `Rat` standing for
Python floats, keeping the arithmetic exact), Python dicts as association
lists, and the stateful converter as explicit state passing.  All definitions
are executable and translated from the source files; external library
behaviour (the `json` module, pydantic validation) is modelled where noted.
-/

namespace FA

/-! ## Character-level string helpers (models of Python `str` methods) -/

/-- The characters of a string. -/
def chars (s : String) : List Char := s.data

/-- Rebuild a string from characters. -/
def strOfChars (cs : List Char) : String := String.mk cs

/-- Python `str.isdigit` for ASCII content: non-empty and all digits. -/
def pyIsDigit (cs : List Char) : Bool := !cs.isEmpty && cs.all Char.isDigit

/-- Whitespace characters stripped by Python `str.strip()`. -/
def isWs (c : Char) : Bool := c == ' ' || c == '\t' || c == '\n' || c == '\r'

/-- Python `str.strip()` on a character list. -/
def stripChars (cs : List Char) : List Char :=
  ((cs.dropWhile isWs).reverse.dropWhile isWs).reverse

/-- Python `str.rstrip()` on a character list. -/
def rstripChars (cs : List Char) : List Char :=
  (cs.reverse.dropWhile isWs).reverse

/-- Python `str.lower()` on a character list. -/
def lowerChars (cs : List Char) : List Char := cs.map Char.toLower

/-- Python `str.replace(a, b)` for single characters. -/
def replaceChar (a b : Char) (cs : List Char) : List Char :=
  cs.map (fun c => if c == a then b else c)

/-- Python `str.replace(a, "")` for a single character: remove it. -/
def removeChar (a : Char) (cs : List Char) : List Char :=
  cs.filter (fun c => !(c == a))

/-- Numeric value of a digit list (most significant first). -/
def digitsVal (cs : List Char) : Nat :=
  cs.foldl (fun acc c => acc * 10 + (c.toNat - 48)) 0

/-- Python `str.split(sep)` for a single-character separator. -/
def splitOnChar (sep : Char) (cs : List Char) : List (List Char) :=
  match cs with
  | [] => [[]]
  | c :: rest =>
    let r := splitOnChar sep rest
    if c == sep then [] :: r
    else
      match r with
      | [] => [[c]]
      | g :: gs => (c :: g) :: gs

/-- Python `int(s)` on a stripped string: optional sign followed by digits. -/
def parsePyInt (cs : List Char) : Option Int :=
  let cs := stripChars cs
  match cs with
  | '-' :: rest => if pyIsDigit rest then some (-(digitsVal rest : Int)) else none
  | '+' :: rest => if pyIsDigit rest then some (digitsVal rest : Int) else none
  | _ => if pyIsDigit cs then some (digitsVal cs : Int) else none

/-- Python `float(s)` for plain decimal literals: optional sign, integer part,
optional fractional part (at least one of the two parts non-empty).  Special
forms (`inf`, `nan`, exponents, underscores) are out of the modelled subset
and yield `none` like any other undecodable string. -/
def parsePyFloat (cs : List Char) : Option Rat :=
  let cs := stripChars cs
  let withSign : Int → List Char → Option Rat := fun sign ds =>
    let ip := ds.takeWhile Char.isDigit
    let rest := ds.dropWhile Char.isDigit
    match rest with
    | [] => if ip.isEmpty then none else some (mkRat (sign * (digitsVal ip : Int)) 1)
    | '.' :: frac =>
      if frac.all Char.isDigit && !(ip.isEmpty && frac.isEmpty) then
        some (mkRat (sign * ((digitsVal ip * 10 ^ frac.length + digitsVal frac : Nat) : Int))
          (10 ^ frac.length))
      else none
    | _ => none
  match cs with
  | '-' :: rest => withSign (-1) rest
  | '+' :: rest => withSign 1 rest
  | _ => withSign 1 cs

/-- Truncation toward zero, the behaviour of Python `int(float)`. -/
def truncRat (q : Rat) : Int := q.num.tdiv (q.den : Int)

/-! ## Embedded Python values

`PyVal` embeds the Python values flowing through the parser: strings, ints,
floats (as exact rationals), bools, lists, dicts (association lists preserving
insertion order) and `None`. -/

inductive PyVal where
  | str (s : String)
  | int (n : Int)
  | num (q : Rat)
  | bool (b : Bool)
  | list (xs : List PyVal)
  | dict (kvs : List (String × PyVal))
  | none
deriving Repr

/-- Python `isinstance(v, str)`. -/
def PyVal.isStr : PyVal → Bool
  | .str _ => true
  | _ => false

/-- Python `isinstance(v, int)`.  In Python, `bool` is a subclass of `int`,
so `isinstance(True, int)` is `True`; the embedding keeps that behaviour. -/
def PyVal.isInstInt : PyVal → Bool
  | .int _ => true
  | .bool _ => true
  | _ => false

/-- Python `isinstance(v, (int, float))` (again including `bool`). -/
def PyVal.isInstIntFloat : PyVal → Bool
  | .int _ => true
  | .bool _ => true
  | .num _ => true
  | _ => false

/-- Python `isinstance(v, bool)`. -/
def PyVal.isBool : PyVal → Bool
  | .bool _ => true
  | _ => false

/-- Python `isinstance(v, list)`. -/
def PyVal.isList : PyVal → Bool
  | .list _ => true
  | _ => false

/-- Python `isinstance(v, dict)`. -/
def PyVal.isDict : PyVal → Bool
  | .dict _ => true
  | _ => false

/-- Membership test on a list of strings (Python `in` on a set or list of
names). -/
def containsStr (xs : List String) (x : String) : Bool :=
  xs.any (fun y => y == x)

/-- Python `d[k]`-style lookup in an association list: first binding wins,
like a dict built left to right. -/
def lookupStr {α : Type} (kvs : List (String × α)) (k : String) : Option α :=
  match kvs with
  | [] => Option.none
  | (k', v) :: rest => if k' == k then some v else lookupStr rest k

/-! ## Model of Python `json.loads` / `json.dumps`

The `json` module is standard-library code outside the repository; it is
modelled as a recursive-descent parser over characters for the JSON subset
the system exchanges (objects, arrays, strings with common escapes, decimal
numbers, `true`/`false`/`null`).  The parser carries a call budget that is
ample for its input (two calls per character); running out of budget reports
a decode failure, exactly like malformed input. -/

/-- Skip JSON whitespace. -/
def jskip (cs : List Char) : List Char :=
  cs.dropWhile (fun c => c == ' ' || c == '\t' || c == '\n' || c == '\r')

/-- Parse a JSON string body after the opening quote; returns the content and
the characters after the closing quote. -/
def jstring (fuel : Nat) (cs : List Char) (acc : List Char) : Option (String × List Char) :=
  match fuel, cs with
  | 0, _ => Option.none
  | _, [] => Option.none
  | fuel + 1, c :: rest =>
    if c == '"' then some (strOfChars acc.reverse, rest)
    else if c == '\\' then
      match rest with
      | [] => Option.none
      | e :: rest' =>
        let ec : Option Char :=
          if e == '"' then some '"' else if e == '\\' then some '\\'
          else if e == '/' then some '/' else if e == 'n' then some '\n'
          else if e == 't' then some '\t' else if e == 'r' then some '\r'
          else Option.none
        match ec with
        | some d => jstring fuel rest' (d :: acc)
        | Option.none => Option.none
    else jstring fuel rest (c :: acc)

/-- Parse a JSON number at the head of the input. -/
def jnumber (cs : List Char) : Option (PyVal × List Char) :=
  let (sign, cs') : Int × List Char :=
    match cs with
    | '-' :: rest => (-1, rest)
    | _ => (1, cs)
  let ip := cs'.takeWhile Char.isDigit
  let rest := cs'.dropWhile Char.isDigit
  if ip.isEmpty then Option.none
  else
    match rest with
    | '.' :: tail =>
      let frac := tail.takeWhile Char.isDigit
      let rest' := tail.dropWhile Char.isDigit
      if frac.isEmpty then Option.none
      else
        some (.num (mkRat (sign * ((digitsVal ip * 10 ^ frac.length + digitsVal frac : Nat) : Int))
          (10 ^ frac.length)), rest')
    | _ => some (.int (sign * (digitsVal ip : Int)), rest)

mutual

/-- Parse one JSON value. -/
def jvalue (fuel : Nat) (cs : List Char) : Option (PyVal × List Char) :=
  match fuel with
  | 0 => Option.none
  | fuel + 1 =>
    match jskip cs with
    | '{' :: rest =>
      match jskip rest with
      | '}' :: rest' => some (.dict [], rest')
      | rest' => jmembers fuel rest' []
    | '[' :: rest =>
      match jskip rest with
      | ']' :: rest' => some (.list [], rest')
      | rest' => jelems fuel rest' []
    | '"' :: rest =>
      match jstring fuel rest [] with
      | some (s, rest') => some (.str s, rest')
      | Option.none => Option.none
    | 't' :: 'r' :: 'u' :: 'e' :: rest => some (.bool true, rest)
    | 'f' :: 'a' :: 'l' :: 's' :: 'e' :: rest => some (.bool false, rest)
    | 'n' :: 'u' :: 'l' :: 'l' :: rest => some (.none, rest)
    | rest => jnumber rest

/-- Parse the members of a JSON object after `{` (first member onward). -/
def jmembers (fuel : Nat) (cs : List Char) (acc : List (String × PyVal)) :
    Option (PyVal × List Char) :=
  match fuel with
  | 0 => Option.none
  | fuel + 1 =>
    match jskip cs with
    | '"' :: rest =>
      match jstring fuel rest [] with
      | some (key, rest') =>
        match jskip rest' with
        | ':' :: rest'' =>
          match jvalue fuel rest'' with
          | some (v, rest''') =>
            match jskip rest''' with
            | ',' :: more => jmembers fuel more (acc ++ [(key, v)])
            | '}' :: more => some (.dict (acc ++ [(key, v)]), more)
            | _ => Option.none
          | Option.none => Option.none
        | _ => Option.none
      | Option.none => Option.none
    | _ => Option.none

/-- Parse the elements of a JSON array after `[` (first element onward). -/
def jelems (fuel : Nat) (cs : List Char) (acc : List PyVal) :
    Option (PyVal × List Char) :=
  match fuel with
  | 0 => Option.none
  | fuel + 1 =>
    match jvalue fuel cs with
    | some (v, rest) =>
      match jskip rest with
      | ',' :: more => jelems fuel more (acc ++ [v])
      | ']' :: more => some (.list (acc ++ [v]), more)
      | _ => Option.none
    | Option.none => Option.none

end

/-- Model of Python `json.loads`: decode a whole string, requiring only
whitespace to remain.  Returns `none` where `json.loads` raises
`JSONDecodeError`. -/
def jsonLoads (s : String) : Option PyVal :=
  match jvalue (2 * (chars s).length + 8) (chars s) with
  | some (v, rest) => if (jskip rest).isEmpty then some v else Option.none
  | Option.none => Option.none

/-- Quote and escape a string for JSON output. -/
def jquote (s : String) : String :=
  strOfChars ('"' :: (chars s).foldr
    (fun c acc =>
      if c == '"' then '\\' :: '"' :: acc
      else if c == '\\' then '\\' :: '\\' :: acc
      else if c == '\n' then '\\' :: 'n' :: acc
      else if c == '\t' then '\\' :: 't' :: acc
      else if c == '\r' then '\\' :: 'r' :: acc
      else c :: acc) ['"'])

/-- Decimal rendering of an integer. -/
def intRepr (n : Int) : String :=
  if n < 0 then "-" ++ strOfChars (Nat.toDigits 10 n.natAbs)
  else strOfChars (Nat.toDigits 10 n.natAbs)

/-- Rendering of an exact rational (model of Python float formatting; the
numerator/denominator form differs from Python's decimal output, but no
behaviour in the system inspects the rendered text). -/
def ratRepr (q : Rat) : String :=
  intRepr q.num ++ "/" ++ intRepr (q.den : Int)

/-- Model of Python `json.dumps` on embedded values. -/
def jsonDumps : PyVal → String
  | .str s => jquote s
  | .int n => intRepr n
  | .num q => ratRepr q
  | .bool b => if b then "true" else "false"
  | .none => "null"
  | .list xs => "[" ++ String.intercalate ", " (xs.attach.map (fun x => jsonDumps x.1)) ++ "]"
  | .dict kvs =>
    "\x7b" ++ String.intercalate ", "
      (kvs.attach.map (fun kv => jquote kv.1.1 ++ ": " ++ jsonDumps kv.1.2)) ++ "\x7d"
decreasing_by
  · have h1 := List.sizeOf_lt_of_mem x.2
    simp only [PyVal.list.sizeOf_spec]
    omega
  · obtain ⟨⟨a, b⟩, hm⟩ := kv
    have h1 := List.sizeOf_lt_of_mem hm
    simp only [PyVal.dict.sizeOf_spec, Prod.mk.sizeOf_spec] at *
    omega

/-- Model of Python `str(v)` (used only when coercing a value into a
string-typed field; nothing downstream inspects the rendered text). -/
def pyStr : PyVal → String
  | .str s => s
  | .bool b => if b then "True" else "False"
  | .none => "None"
  | v => jsonDumps v

/-! ## Schema Description Engine (`squadai/utils/converter.py`, upper half)

`JSchema` embeds the JSON-schema dictionaries produced by pydantic's
`model_json_schema()` and consumed/produced by `PydanticToOpenAIConverter`,
projected onto exactly the keys the converter reads or writes: `type`,
`properties`, `required`, `items`, `enum`, `anyOf`, `oneOf`, `allOf`, `$ref`,
`description`, `title` and `$defs`.  An `Option` distinguishes an absent key
from a present-but-empty one, mirroring Python's `key in dict` tests. -/

inductive JSchema where
  | mk (type? : Option String)
       (properties? : Option (List (String × JSchema)))
       (required? : Option (List String))
       (items? : Option JSchema)
       (enum? : Option (List String))
       (anyOf? : Option (List JSchema))
       (oneOf? : Option (List JSchema))
       (allOf? : Option (List JSchema))
       (ref? : Option String)
       (description? : Option String)
       (title? : Option String)
       (defs? : Option (List (String × JSchema)))

/-- The `type` key. -/
def JSchema.type? : JSchema → Option String
  | .mk t _ _ _ _ _ _ _ _ _ _ _ => t

/-- The `properties` key. -/
def JSchema.properties? : JSchema → Option (List (String × JSchema))
  | .mk _ p _ _ _ _ _ _ _ _ _ _ => p

/-- The `required` key. -/
def JSchema.required? : JSchema → Option (List String)
  | .mk _ _ r _ _ _ _ _ _ _ _ _ => r

/-- The `items` key. -/
def JSchema.items? : JSchema → Option JSchema
  | .mk _ _ _ i _ _ _ _ _ _ _ _ => i

/-- The `enum` key. -/
def JSchema.enum? : JSchema → Option (List String)
  | .mk _ _ _ _ e _ _ _ _ _ _ _ => e

/-- The `anyOf` key. -/
def JSchema.anyOf? : JSchema → Option (List JSchema)
  | .mk _ _ _ _ _ a _ _ _ _ _ _ => a

/-- The `oneOf` key. -/
def JSchema.oneOf? : JSchema → Option (List JSchema)
  | .mk _ _ _ _ _ _ o _ _ _ _ _ => o

/-- The `allOf` key. -/
def JSchema.allOf? : JSchema → Option (List JSchema)
  | .mk _ _ _ _ _ _ _ a _ _ _ _ => a

/-- The `$ref` key (holding just the final path segment, the definition
name, since the code immediately reduces `ref_path.split("/")[-1]`). -/
def JSchema.ref? : JSchema → Option String
  | .mk _ _ _ _ _ _ _ _ r _ _ _ => r

/-- The `description` key. -/
def JSchema.description? : JSchema → Option String
  | .mk _ _ _ _ _ _ _ _ _ d _ _ => d

/-- The `title` key. -/
def JSchema.title? : JSchema → Option String
  | .mk _ _ _ _ _ _ _ _ _ _ t _ => t

/-- The `$defs` key. -/
def JSchema.defs? : JSchema → Option (List (String × JSchema))
  | .mk _ _ _ _ _ _ _ _ _ _ _ d => d

/-- A schema dictionary holding only a `type` and optionally a
`description`, the shape of every degraded placeholder the converter
emits. -/
def JSchema.basic (t : String) (d : Option String) : JSchema :=
  .mk (some t) Option.none Option.none Option.none Option.none Option.none
      Option.none Option.none Option.none d Option.none Option.none

/-- The placeholder returned when a `$ref` is re-encountered while it is
still being resolved (`"Referência circular detectada"`). -/
def circularPlaceholder (name : String) : JSchema :=
  JSchema.basic "object" (some ("Referência circular detectada para " ++ name))

/-- The placeholder returned for a `$ref` that has no entry in `$defs`. -/
def unresolvedPlaceholder (name : String) : JSchema :=
  JSchema.basic "string" (some ("Referência não resolvida: " ++ name))

/-- Definition names not currently being resolved; the decreasing measure of
the cycle guard. -/
def unvisitedCount (defs : List (String × JSchema)) (visited : List String) : Nat :=
  (defs.filter (fun kv => !containsStr visited kv.1)).length

/-- `PydanticToOpenAIConverter._resolve_field_schema` with the converter's
mutable guard state threaded explicitly: the `visited` set grows on entering
a `$ref` resolution and is implicitly restored for sibling branches
(`visited_refs.add` / `finally: discard` in the source).  Terminates because
each `$ref` descent strictly shrinks the set of unvisited definition names
and every other descent strictly shrinks the schema term. -/
def resolve_field_schema (defs : List (String × JSchema)) (visited : List String) :
    JSchema → JSchema
  | .mk t props req items en anyOf oneOf allOf ref descr title sdefs =>
    match ref with
    | some refName =>
      match hv : containsStr visited refName with
      | true => circularPlaceholder refName
      | false =>
        match hlk : lookupStr defs refName with
        | some d => resolve_field_schema defs (refName :: visited) d
        | Option.none => unresolvedPlaceholder refName
    | Option.none =>
      if t == some "array" then
        JSchema.mk (some "array") Option.none Option.none
          (match hit : items with
           | some it => some (resolve_field_schema defs visited it)
           | Option.none => Option.none)
          Option.none Option.none Option.none Option.none Option.none descr
          Option.none Option.none
      else if t == some "object" && props.isSome then
        JSchema.mk (some "object")
          (some ((props.getD []).attach.map
            (fun p => (p.1.1, resolve_field_schema defs visited p.1.2))))
          req Option.none Option.none Option.none Option.none Option.none
          Option.none descr Option.none Option.none
      else if en.isSome then
        JSchema.mk (some "string") Option.none Option.none Option.none en
          Option.none Option.none Option.none Option.none descr Option.none Option.none
      else if anyOf.isSome || oneOf.isSome || allOf.isSome then
        match hfind : (match anyOf with
                       | some l => l
                       | Option.none =>
                         match oneOf with
                         | some l => l
                         | Option.none => allOf.getD []).find?
                        (fun u => !(JSchema.type? u == some "null")) with
        | some u => resolve_field_schema defs visited u
        | Option.none =>
          if (match anyOf with
              | some l => l
              | Option.none =>
                match oneOf with
                | some l => l
                | Option.none => allOf.getD []).isEmpty then
            JSchema.basic "string" (some "Union type sem opções válidas")
          else
            JSchema.basic "string" (some "Union type com opções")
      else
        JSchema.mk t props req items en anyOf oneOf allOf Option.none descr
          Option.none Option.none
termination_by s => (unvisitedCount defs visited, sizeOf s)
decreasing_by
  · -- entering a `$ref`: the unvisited-definition count strictly decreases
    apply Prod.Lex.left
    simp only [unvisitedCount]
    have key : ∀ ds : List (String × JSchema),
        ((ds.filter (fun kv => !containsStr (refName :: visited) kv.1)).length ≤
          (ds.filter (fun kv => !containsStr visited kv.1)).length) ∧
        (lookupStr ds refName = some d →
          (ds.filter (fun kv => !containsStr (refName :: visited) kv.1)).length <
          (ds.filter (fun kv => !containsStr visited kv.1)).length) := by
      intro ds
      induction ds with
      | nil =>
        refine ⟨by simp, ?_⟩
        intro h
        simp [lookupStr] at h
      | cons kv rest ih =>
        obtain ⟨k, w⟩ := kv
        obtain ⟨ihle, ihlt⟩ := ih
        have hcc : containsStr (refName :: visited) k =
            ((refName == k) || containsStr visited k) := by
          simp [containsStr]
        refine ⟨?_, ?_⟩
        · rcases h1 : containsStr (refName :: visited) k with _ | _
          · have h2 : containsStr visited k = false := by
              rw [hcc] at h1
              rcases h3 : containsStr visited k with _ | _
              · rfl
              · rw [h3] at h1; simp at h1
            simp [List.filter_cons, h1, h2]
            omega
          · rcases h2 : containsStr visited k with _ | _
            · simp [List.filter_cons, h1, h2]
              omega
            · simp [List.filter_cons, h1, h2]
              omega
        · intro h
          rw [lookupStr] at h
          rcases hk : (k == refName) with _ | _
          · simp only [hk, Bool.false_eq_true, if_false] at h
            have hrk : (refName == k) = false := by
              rcases h3 : (refName == k) with _ | _
              · rfl
              · have he : refName = k := eq_of_beq h3
                subst he
                simp at hk
            rcases h2 : containsStr visited k with _ | _
            · have h1 : containsStr (refName :: visited) k = false := by
                rw [hcc, hrk, h2]; rfl
              have := ihlt h
              simp [List.filter_cons, h1, h2]
              omega
            · have h1 : containsStr (refName :: visited) k = true := by
                rw [hcc, h2]; simp
              have := ihlt h
              simp [List.filter_cons, h1, h2]
              omega
          · have hkeq : k = refName := eq_of_beq hk
            have h2 : containsStr visited k = false := by rw [hkeq]; exact hv
            have h1 : containsStr (refName :: visited) k = true := by
              rw [hcc, hkeq]; simp
            simp [List.filter_cons, h1, h2]
            omega
    exact (key defs).2 hlk
  · -- array `items` descent: the schema term strictly shrinks
    apply Prod.Lex.right
    simp only [JSchema.mk.sizeOf_spec, Option.some.sizeOf_spec]
    omega
  · -- nested-object property descent
    apply Prod.Lex.right
    rename_i props req items en anyOf oneOf allOf descr title sdefs harr hobj
    obtain ⟨⟨pn, pv⟩, hp⟩ := p
    cases props with
    | none => simp [Option.getD] at hp
    | some l =>
      simp only [Option.getD_some] at hp
      have h1 := List.sizeOf_lt_of_mem hp
      simp only [Prod.mk.sizeOf_spec] at h1
      simp only [JSchema.mk.sizeOf_spec, Option.some.sizeOf_spec]
      omega
  · -- union-alternative descent
    apply Prod.Lex.right
    rename_i props req items en anyOf oneOf allOf descr title sdefs h1 h2 h3 h4
    have hu := List.mem_of_find?_eq_some hfind
    have h5 : sizeOf u < 1 + sizeOf anyOf + sizeOf oneOf + sizeOf allOf := by
      cases anyOf with
      | some l =>
        simp only at hu
        have := List.sizeOf_lt_of_mem hu
        simp only [Option.some.sizeOf_spec]
        omega
      | none =>
        cases oneOf with
        | some l =>
          simp only at hu
          have := List.sizeOf_lt_of_mem hu
          simp only [Option.some.sizeOf_spec]
          omega
        | none =>
          cases allOf with
          | some l =>
            simp only [Option.getD_some] at hu
            have := List.sizeOf_lt_of_mem hu
            simp only [Option.some.sizeOf_spec]
            omega
          | none => simp [Option.getD] at hu
    simp only [JSchema.mk.sizeOf_spec]
    omega

/-- The mutable fields of `PydanticToOpenAIConverter`: the recursion limit
and the cycle-guard state (`visited_refs`, `current_depth`). -/
structure ConverterState where
  max_depth : Int
  visited_refs : List String
  current_depth : Int

/-- `PydanticToOpenAIConverter._convert_schema`: the top-level object
conversion.  The depth counter is incremented on entry (and restored in the
`finally`), but no recursive path re-enters `_convert_schema`, so the guard
only compares the entry depth against `max_depth`.  Per-field failures
cannot arise in the pure embedding, so the per-field `except` fallback
(`"Campo com erro de conversão"`) is unreachable. -/
def convert_schema (max_depth current_depth : Int) (defs : List (String × JSchema))
    (visited : List String) (schema : JSchema) : JSchema :=
  if current_depth > max_depth then
    JSchema.basic "object" (some "Schema truncado devido ao limite de recursão")
  else
    let properties := schema.properties?.getD []
    let required_fields := (schema.required?).getD []
    JSchema.mk (some "object")
      (some (properties.map (fun p => (p.1, resolve_field_schema defs visited p.2))))
      (some ((properties.filter (fun p => containsStr required_fields p.1)).map (fun p => p.1)))
      Option.none Option.none Option.none Option.none Option.none Option.none
      Option.none Option.none Option.none

/-- `PydanticToOpenAIConverter.convert`: clears the guard state
(`visited_refs.clear()`, `current_depth = 0`) and converts the model's JSON
schema (whose `$defs` entry supplies the definitions).  Generating the JSON
schema itself (`model.model_json_schema()`) is pydantic-library behaviour;
its output is the `JSchema` input here. -/
def converterConvert (st : ConverterState) (modelSchema : JSchema) : JSchema :=
  convert_schema st.max_depth 0 (modelSchema.defs?.getD []) [] modelSchema

/-- `_validate_openai_schema`: returns the raised `SchemaConversionError`
message, if any. -/
def validate_openai_schema (s : JSchema) : Option String :=
  if s.type?.isNone then some "Schema inválido: chave ausente"
  else if s.properties?.isNone then some "Schema inválido: chave ausente"
  else if !(s.type? == some "object") then some "Schema deve ter type igual a object"
  else Option.none

/-- The OpenAI function-calling wrapper built by `convert_to_openai_tool`. -/
structure OpenAIFunctionDef where
  name : String
  description : String
  parameters : JSchema

/-- `convert_to_openai_tool`: full conversion pipeline with a fresh
converter per call; any validation failure surfaces as a
`SchemaConversionError` (`Except.error`). -/
def convert_to_openai_tool (modelName : String) (modelSchema : JSchema)
    (tool_name tool_description : Option String) (max_recursion_depth : Int) :
    Except String OpenAIFunctionDef :=
  let default_tool_name := tool_name.getD ("parse_" ++ strOfChars (lowerChars (chars modelName)))
  let default_description := tool_description.getD
    ("Parse and structure data according to " ++ modelName ++ " schema")
  let converter : ConverterState := ⟨max_recursion_depth, [], 0⟩
  let schema := converterConvert converter modelSchema
  match validate_openai_schema schema with
  | some err => .error ("Falha na conversão do schema: " ++ err)
  | Option.none => .ok ⟨default_tool_name, default_description, schema⟩

/-! ## Resilient Structured Parser (`PydanticParserTool`, `converter.py` lower half)

The target record type is carried as its pydantic JSON schema: an ordered
list of `(field name, declared type)` pairs plus the `required` name list —
exactly the `properties` / `required` projections every recovery routine in
the source reads (`model_schema.get("properties")`,
`model_schema.get("required")`). -/

/-- A target record schema: ordered fields with their declared wire kinds,
and the required field names. -/
structure TargetModel where
  props : List (String × String)
  required : List String

/-- Modelled from the spec: pydantic's `model_validate` (external library
code) checks one value against one declared field kind.  Following §3 and
the §9 note (model record machinery as tagged kinds with explicit
`describe`/`defaultFor` per kind), a field accepts exactly the values of its
declared kind, with `integer` values also acceptable where a `number` is
declared; kinds outside the wire vocabulary accept nothing. -/
def validateValue (ty : String) (v : PyVal) : Bool :=
  if ty == "string" then v.isStr
  else if ty == "integer" then (match v with | .int _ => true | _ => false)
  else if ty == "number" then (match v with | .int _ => true | .num _ => true | _ => false)
  else if ty == "boolean" then v.isBool
  else if ty == "array" then v.isList
  else if ty == "object" then v.isDict
  else false

/-- The pydantic-v2 error-type tag reported for a value of the wrong kind
(`"missing"` is reported separately for absent required fields). -/
def typeErrorTag (ty : String) : String :=
  if ty == "string" then "string_type"
  else if ty == "integer" then "int_type"
  else if ty == "number" then "float_type"
  else if ty == "boolean" then "bool_type"
  else if ty == "array" then "list_type"
  else if ty == "object" then "dict_type"
  else "unknown_type"

/-- Modelled from the spec: the per-field error list of a pydantic
`ValidationError` — `(loc[0], type)` pairs.  A required field that is absent
reports `"missing"`; a present field of the wrong kind reports its kind's
type tag; unknown extra fields are ignored (pydantic's default). -/
def field_errors (props : List (String × String)) (required : List String)
    (data : List (String × PyVal)) : List (String × String) :=
  props.foldr
    (fun p acc =>
      match lookupStr data p.1 with
      | some v => if validateValue p.2 v then acc else (p.1, typeErrorTag p.2) :: acc
      | Option.none =>
        if containsStr required p.1 then (p.1, "missing") :: acc else acc)
    []

/-- The error list of one validation attempt against a target model. -/
def fieldErrors (t : TargetModel) (data : List (String × PyVal)) :
    List (String × String) :=
  field_errors t.props t.required data

/-- Modelled from the spec: pydantic `model_validate` on a dict — succeeds
exactly when no field errors arise, and the resulting instance carries the
model's fields in declaration order (extras dropped). -/
def model_validate (t : TargetModel) (data : PyVal) :
    Except (List (String × String)) (List (String × PyVal)) :=
  match data with
  | .dict kvs =>
    match fieldErrors t kvs with
    | [] => .ok (t.props.filterMap (fun p => (lookupStr kvs p.1).map (fun v => (p.1, v))))
    | errs => .error errs
  | _ => .error [("__root__", "model_type")]

/-- `PydanticParserTool._get_default_value_for_field`. -/
def get_default_value_for_field (field_schema_type : String) : PyVal :=
  if field_schema_type == "string" then .str ""
  else if field_schema_type == "integer" then .int 0
  else if field_schema_type == "number" then .num (mkRat 0 1)
  else if field_schema_type == "boolean" then .bool false
  else if field_schema_type == "array" then .list []
  else if field_schema_type == "object" then .dict []
  else .str ""

/-- `PydanticParserTool._convert_field_value`: coercion of one value toward
one declared kind.  Returns `none` exactly where the Python function returns
`None` (only reachable for kinds outside the wire vocabulary). -/
def convert_field_value (v : PyVal) (expected_type : String) : Option PyVal :=
  if expected_type == "string" && v.isStr then some v
  else if expected_type == "integer" && v.isInstInt then some v
  else if expected_type == "number" && v.isInstIntFloat then some v
  else if expected_type == "boolean" && v.isBool then some v
  else if expected_type == "array" && v.isList then some v
  else if expected_type == "object" && v.isDict then some v
  else if expected_type == "string" then
    some (match v with | .none => .str "" | _ => .str (pyStr v))
  else if expected_type == "integer" then
    some (match v with
      | .str s =>
        let cleaned := stripChars (chars s)
        if pyIsDigit cleaned ||
            (match cleaned with
             | '-' :: rest => pyIsDigit rest
             | _ => false) then
          .int ((parsePyInt cleaned).getD 0)
        else
          match parsePyFloat cleaned with
          | some q => .int (truncRat q)
          | Option.none => .int 0
      | .num q => .int (truncRat q)
      | .bool b => .int (if b then 1 else 0)
      | _ => .int 0)
  else if expected_type == "number" then
    some (match v with
      | .str s =>
        let cleaned := replaceChar ',' '.' (stripChars (chars s))
        match parsePyFloat cleaned with
        | some q => .num q
        | Option.none => .num (mkRat 0 1)
      | .int n => .num (mkRat n 1)
      | .bool b => .num (mkRat (if b then 1 else 0) 1)
      | _ => .num (mkRat 0 1))
  else if expected_type == "boolean" then
    some (match v with
      | .str s =>
        .bool (containsStr ["true", "1", "yes", "on", "sim", "verdadeiro"]
          (strOfChars (stripChars (lowerChars (chars s)))))
      | .int n => .bool (!(n == 0))
      | .num q => .bool (!(q.num == 0))
      | _ => .bool false)
  else if expected_type == "array" then
    some (match v with
      | .str s =>
        match jsonLoads s with
        | some (.list xs) => .list xs
        | some parsed => .list [parsed]
        | Option.none =>
          .list ((splitOnChar ',' (chars s)).filterMap
            (fun item =>
              let trimmed := stripChars item
              if trimmed.isEmpty then Option.none else some (.str (strOfChars trimmed))))
      | .none => .list []
      | other => .list [other])
  else if expected_type == "object" then
    some (match v with
      | .str s =>
        match jsonLoads s with
        | some (.dict kvs) => .dict kvs
        | some _ => .dict []
        | Option.none => .dict []
      | _ => .dict [])
  else Option.none

/-- `PydanticParserTool._sanitize_data_recursively`: digit strings become
ints, dotted numeric strings become floats (when `float()` accepts them),
containers are sanitized recursively. -/
def sanitize_data_recursively : PyVal → PyVal
  | .dict kvs => .dict (kvs.attach.map (fun kv => (kv.1.1, sanitize_data_recursively kv.1.2)))
  | .list xs => .list (xs.attach.map (fun x => sanitize_data_recursively x.1))
  | .str s =>
    let cs := chars s
    if pyIsDigit cs then .int (digitsVal cs)
    else if cs.contains '.' && pyIsDigit (removeChar '-' (removeChar '.' cs)) then
      match parsePyFloat cs with
      | some q => .num q
      | Option.none => .str s
    else .str s
  | v => v
decreasing_by
  · obtain ⟨⟨a, b⟩, hm⟩ := kv
    have h1 := List.sizeOf_lt_of_mem hm
    simp only [PyVal.dict.sizeOf_spec, Prod.mk.sizeOf_spec] at *
    omega
  · have h1 := List.sizeOf_lt_of_mem x.2
    simp only [PyVal.list.sizeOf_spec]
    omega

/-- `PydanticParserTool._prepare_data_for_model`: a single string-valued
keyword argument is first offered to `json.loads`; on decode failure the
raw keyword map itself is sanitized instead of failing. -/
def prepare_data_for_model (kwargs : List (String × PyVal)) : PyVal :=
  let decoded : Option PyVal :=
    match kwargs with
    | [(_, .str s)] => jsonLoads s
    | _ => Option.none
  match decoded with
  | some parsed => sanitize_data_recursively parsed
  | Option.none => sanitize_data_recursively (.dict kwargs)

/-- Python `key in container` for the values the recovery routines may
receive: key membership for dicts, element equality for lists, substring
containment for strings; `none` models the `TypeError` raised when `in` is
applied to a non-container. -/
def pyIn (key : String) : PyVal → Option Bool
  | .dict kvs => some (containsStr (kvs.map (fun kv => kv.1)) key)
  | .list xs => some (xs.any (fun x => match x with | .str s => s == key | _ => false))
  | .str s => some ((chars s).tails.any (fun t => (chars key).isPrefixOf t))
  | _ => Option.none

/-- Python `container[key]` for a string key: only dicts support it; `none`
models the `TypeError`/`KeyError` raised otherwise. -/
def pyGetItem (key : String) : PyVal → Option PyVal
  | .dict kvs => lookupStr kvs key
  | _ => Option.none

/-- `PydanticParserTool._clean_and_fix_data_defensively`.  The error-field
set collects `loc[0]` of each reported error (a root-level error has an
empty `loc` and is skipped).  An `Except.error` is the `TypeError` Python
raises when the recovery data is not a container — it is not a
`ValidationError`, so it escapes the recovery cascade. -/
def clean_and_fix_data_defensively (t : TargetModel) (data : PyVal)
    (errs : List (String × String)) : Except Unit (List (String × PyVal)) :=
  let error_fields := (errs.filter (fun e => !(e.1 == ""))).map (fun e => e.1)
  t.props.foldlM
    (fun cleaned p =>
      if containsStr error_fields p.1 then
        match pyIn p.1 data with
        | Option.none => .error ()
        | some true =>
          match pyGetItem p.1 data with
          | Option.none => .error ()
          | some v =>
            match convert_field_value v p.2 with
            | some conv => .ok (cleaned ++ [(p.1, conv)])
            | Option.none =>
              if containsStr t.required p.1 then
                .ok (cleaned ++ [(p.1, get_default_value_for_field p.2)])
              else .ok cleaned
        | some false =>
          if containsStr t.required p.1 then
            .ok (cleaned ++ [(p.1, get_default_value_for_field p.2)])
          else .ok cleaned
      else
        match pyIn p.1 data with
        | Option.none => .error ()
        | some true =>
          match pyGetItem p.1 data with
          | Option.none => .error ()
          | some v => .ok (cleaned ++ [(p.1, v)])
        | some false => .ok cleaned)
    []

/-- `PydanticParserTool._create_safe_data_from_model`: keep coercible input
fields, default everything else (required or not when present, required
only when absent). -/
def create_safe_data_from_model (t : TargetModel) (original : PyVal) :
    Except Unit (List (String × PyVal)) :=
  t.props.foldlM
    (fun safe p =>
      match pyIn p.1 original with
      | Option.none => .error ()
      | some true =>
        match pyGetItem p.1 original with
        | Option.none => .error ()
        | some v =>
          match convert_field_value v p.2 with
          | some conv => .ok (safe ++ [(p.1, conv)])
          | Option.none => .ok (safe ++ [(p.1, get_default_value_for_field p.2)])
      | some false =>
        if containsStr t.required p.1 then
          .ok (safe ++ [(p.1, get_default_value_for_field p.2)])
        else .ok safe)
    []

/-- One step of `_create_minimal_valid_instance`: a required field name
present among the model properties contributes its kind default. -/
def minimal_step (props : List (String × String)) (minimal : List (String × PyVal))
    (fname : String) : List (String × PyVal) :=
  match lookupStr props fname with
  | some ty => minimal ++ [(fname, get_default_value_for_field ty)]
  | Option.none => minimal

/-- `PydanticParserTool._create_minimal_valid_instance`: required fields
only, each at its kind default. -/
def create_minimal_valid_instance (t : TargetModel) : List (String × PyVal) :=
  t.required.foldl (minimal_step t.props) []

/-- `PydanticParserTool._format_validation_error` (the formatted text is
carried but never inspected downstream). -/
def format_validation_error (errs : List (String × String)) : String :=
  String.intercalate "; " (errs.map (fun e => "Campo " ++ e.1 ++ " tipo " ++ e.2))

/-- `PydanticParserTool._parse_with_recovery`: the three-strategy cascade.
Each strategy's `try` catches only `ValidationError`; a `TypeError` from the
data-repair helpers escapes the cascade (and is wrapped by `_run`). -/
def parse_with_recovery (t : TargetModel) (data : PyVal)
    (original_errors : List (String × String)) :
    Except String (List (String × PyVal)) :=
  match clean_and_fix_data_defensively t data original_errors with
  | .error _ => .error "TypeError"
  | .ok cleaned =>
    match model_validate t (.dict cleaned) with
    | .ok inst => .ok inst
    | .error _ =>
      match create_safe_data_from_model t data with
      | .error _ => .error "TypeError"
      | .ok safe =>
        match model_validate t (.dict safe) with
        | .ok inst => .ok inst
        | .error _ =>
          match model_validate t (.dict (create_minimal_valid_instance t)) with
          | .ok inst => .ok inst
          | .error final_errors =>
            .error ("Todas as estratégias de recuperação falharam: " ++
              format_validation_error final_errors)

/-- `PydanticParserTool._parse_to_model`: direct validation, then strict
failure or the recovery cascade. -/
def parse_to_model (t : TargetModel) (data : PyVal) (strict_mode : Bool) :
    Except String (List (String × PyVal)) :=
  match model_validate t data with
  | .ok inst => .ok inst
  | .error errs =>
    if strict_mode then
      .error ("Validação falhou em modo estrito: " ++ format_validation_error errs)
    else parse_with_recovery t data errs

/-- `PydanticParserTool._run`: the parse entry point.  Raises at once when
no keyword data arrives (`if not kwargs`), otherwise prepares the data and
parses; every failure is re-raised as `PydanticParsingError`
(`Except.error`).  The `strict_mode` flag is the keyword argument the
method pops; `return_dict` only changes the packaging of the instance and
is not modelled separately. -/
def PydanticParserTool_run (t : TargetModel) (kwargs : List (String × PyVal))
    (strict_mode : Bool) : Except String (List (String × PyVal)) :=
  if kwargs.isEmpty then .error "Falha no parsing: Nenhum dado recebido para parsing"
  else
    match parse_to_model t (prepare_data_for_model kwargs) strict_mode with
    | .ok inst => .ok inst
    | .error e => .error ("Falha no parsing: " ++ e)

/-! ## `OpenAIToolResponseParser` (`squadai/utils/parser.py`) -/

/-- `OpenAIToolResponseParser._get_default_value_for_field`: unlike the
`PydanticParserTool` version, an unknown kind yields Python `None`
(`default_values.get(field_type)` with no fallback). -/
def resp_get_default_value_for_field (ty : String) : Option PyVal :=
  if ty == "string" then some (.str "")
  else if ty == "integer" then some (.int 0)
  else if ty == "number" then some (.num (mkRat 0 1))
  else if ty == "boolean" then some (.bool false)
  else if ty == "array" then some (.list [])
  else if ty == "object" then some (.dict [])
  else Option.none

/-- `OpenAIToolResponseParser._convert_field_value`: the lighter coercion
table of `parser.py`; `none` is Python `None` (no conversion found). -/
def resp_convert_field_value (v : PyVal) (expected_type : String) : Option PyVal :=
  if expected_type == "string" && !v.isStr then some (.str (pyStr v))
  else if expected_type == "integer" && !v.isInstInt then
    (match v with
     | .num q => some (.int (truncRat q))
     | .str s => (parsePyFloat (chars s)).map (fun q => .int (truncRat q))
     | _ => Option.none)
  else if expected_type == "number" && !v.isInstIntFloat then
    (match v with
     | .str s => (parsePyFloat (chars s)).map (fun q => .num q)
     | _ => Option.none)
  else if expected_type == "boolean" && !v.isBool then
    (match v with
     | .str s =>
       some (.bool (containsStr ["true", "1", "yes", "on"]
         (strOfChars (lowerChars (chars s)))))
     | .none => some (.bool false)
     | .int n => some (.bool (!(n == 0)))
     | .num q => some (.bool (!(q.num == 0)))
     | .list xs => some (.bool (!xs.isEmpty))
     | .dict kvs => some (.bool (!kvs.isEmpty))
     | .bool b => some (.bool b))
  else if expected_type == "array" && !v.isList then
    (match v with
     | .str s =>
       match jsonLoads s with
       | some (.list xs) => some (.list xs)
       | some parsed => some (.list [parsed])
       | Option.none => some (.list [.str s])
     | other => some (.list [other]))
  else Option.none

/-- Replace (or append) one key in an association list, the effect of a
Python dict assignment. -/
def setItem (kvs : List (String × PyVal)) (k : String) (v : PyVal) :
    List (String × PyVal) :=
  if containsStr (kvs.map (fun kv => kv.1)) k then
    kvs.map (fun kv => if kv.1 == k then (kv.1, v) else kv)
  else kvs ++ [(k, v)]

/-- Remove one key from an association list (Python `del d[k]`). -/
def delItem (kvs : List (String × PyVal)) (k : String) : List (String × PyVal) :=
  kvs.filter (fun kv => !(kv.1 == k))

/-- `OpenAIToolResponseParser._clean_and_fix_data`: walks the reported
errors and repairs by error type.  Pydantic v2 tags concrete kind
mismatches as `"<kind>_type"`, so only the `"missing"` branch can fire on
plain wrong-kind data (the `"type_error"`/`"value_error"` names are the
pydantic-v1 vocabulary). -/
def clean_and_fix_data (t : TargetModel) (data : List (String × PyVal))
    (errs : List (String × String)) : List (String × PyVal) :=
  errs.foldl
    (fun cleaned e =>
      if e.1 == "" then cleaned
      else if e.2 == "missing" then
        match lookupStr t.props e.1 with
        | some ty =>
          match resp_get_default_value_for_field ty with
          | some d => setItem cleaned e.1 d
          | Option.none => cleaned
        | Option.none => cleaned
      else if e.2 == "type_error" || e.2 == "value_error" then
        match lookupStr cleaned e.1 with
        | some v =>
          let field_schema_ty := (lookupStr t.props e.1).getD "string"
          match resp_convert_field_value v field_schema_ty with
          | some conv => setItem cleaned e.1 conv
          | Option.none => cleaned
        | Option.none => cleaned
      else if e.2 == "extra_forbidden" then
        match lookupStr cleaned e.1 with
        | some _ => delItem cleaned e.1
        | Option.none => cleaned
      else cleaned)
    data

/-- `OpenAIToolResponseParser._create_model_instance`: direct validation,
then one clean-and-retry; a non-dict payload cannot be repaired (list
repairs raise and are swallowed per error; scalar `.copy()` raises out to
the caller's generic handler). -/
def create_model_instance (t : TargetModel) (data : PyVal) :
    Except String (List (String × PyVal)) :=
  match model_validate t data with
  | .ok inst => .ok inst
  | .error errs =>
    match data with
    | .dict kvs =>
      (match model_validate t (.dict (clean_and_fix_data t kvs errs)) with
       | .ok inst => .ok inst
       | .error errs2 =>
         .error ("Falha na validação do modelo: " ++ format_validation_error errs2))
    | .list _ =>
      .error ("Falha na validação do modelo: " ++ format_validation_error errs)
    | _ => .error "Erro inesperado ao fazer parsing"

/-- `OpenAIToolResponseParser.parse_tool_response`: string arguments must
decode as JSON — a decode failure raises `ToolParsingError` at once, in
strict and non-strict mode alike; dict arguments go straight through;
anything else is rejected. -/
def parse_tool_response (t : TargetModel) (tool_arguments : PyVal)
    (strict : Bool) : Except String (List (String × PyVal)) :=
  match tool_arguments with
  | .str s =>
    (match jsonLoads s with
     | Option.none => .error "Argumentos não são JSON válido"
     | some parsed =>
       if strict then
         match model_validate t parsed with
         | .ok inst => .ok inst
         | .error errs => .error ("Validação falhou: " ++ format_validation_error errs)
       else create_model_instance t parsed)
  | .dict kvs =>
    if strict then
      match model_validate t (.dict kvs) with
      | .ok inst => .ok inst
      | .error errs => .error ("Validação falhou: " ++ format_validation_error errs)
    else create_model_instance t (.dict kvs)
  | _ => .error "Argumentos devem ser string JSON ou dict"

/-! ## Agent Execution Loop (`squadai/agents/agent_executor.py`,
`squadai/utils/agents_utils.py`, `squadai/tools/tool_usage.py`)

The LLM transport is an external collaborator: it is passed in as a plain
function from the current message list to a reply.  A tool's `run` method
(argument-schema validation plus `_run` body) is likewise abstracted as a
function returning `Except`, whose `error` is any exception the per-call
handler catches. -/

/-- One conversation message (`format_message_for_llm` output). -/
structure Message where
  role : String
  content : String
  tool_call_id : Option String
deriving Repr

/-- Python truthiness of the optional `tool_call_id` argument (absent or
empty string are falsy). -/
def truthyId : Option String → Bool
  | Option.none => false
  | some s => !(chars s).isEmpty

/-- `agents_utils.format_message_for_llm`: right-strips the content and
attaches `tool_call_id` only to tool-role messages with a truthy id. -/
def format_message_for_llm (prompt : String) (role : String)
    (tool_call_id : Option String) : Message :=
  { role := role
    content := strOfChars (rstripChars (chars prompt))
    tool_call_id :=
      if role == "tool" && truthyId tool_call_id then tool_call_id else Option.none }

/-- `AgentExecutor._append_message`: a tool-role append without a truthy
`tool_call_id` is silently dropped; every other append formats and appends. -/
def append_message (messages : List Message) (text : String) (role : String)
    (tool_call_id : Option String) : List Message :=
  if role == "tool" && !truthyId tool_call_id then messages
  else messages ++ [format_message_for_llm text role tool_call_id]

/-- One requested tool call inside a model reply
(`call.id`, `call.function.name`, `call.function.arguments`). -/
structure LLMToolCall where
  id : String
  name : String
  arguments : String

/-- A model reply: optional content plus requested tool calls. -/
structure LLMResponse where
  content : Option String
  tool_calls : List LLMToolCall

/-- A registered tool as the executor sees it: its name and its `run`
behaviour (`Except.error` for any exception `run` raises). -/
structure ToolSpec where
  name : String
  impl : List (String × PyVal) → Except String PyVal

/-- One executed call recorded in `self.tool_calls` (the `ToolCall` pydantic
model: tool name, decoded arguments, result). -/
structure ToolCallRec where
  tool_name : String
  arguments : List (String × PyVal)
  result : PyVal

/-- The executor's mutable state: the memory flag and the three growing
lists (`messages`, `tool_calls`, `tool_usages`).  A `ToolUsage` is
represented by its `tool_calls` snapshot (pydantic copies the list on
construction; `task_id`/`agent_id` never vary within one executor). -/
structure ExecState where
  memory : Bool
  messages : List Message
  tool_calls : List ToolCallRec
  tool_usages : List (List ToolCallRec)

/-- `AgentExecutor._process_tool_calls` for one call, also reporting the
name of the tool if its `run` was actually invoked.  An unknown tool name
is skipped (`continue`); undecodable or non-dict arguments raise before
`run` and are swallowed by the per-call handler; a `run` failure is caught
after invocation, leaving no record. -/
def process_one_call (tools : List ToolSpec) (st : ExecState) (call : LLMToolCall) :
    ExecState × Option String :=
  match tools.find? (fun tl => tl.name == call.name) with
  | Option.none => (st, Option.none)
  | some tl =>
    match jsonLoads call.arguments with
    | some (.dict args) =>
      (match tl.impl args with
       | .ok result =>
         let tool_calls' := st.tool_calls ++ [⟨call.name, args, result⟩]
         let st' : ExecState :=
           { st with
             tool_calls := tool_calls'
             tool_usages := st.tool_usages ++ [tool_calls'] }
         let result_str :=
           match result with
           | .str s => s
           | other => jsonDumps other
         ({ st' with
            messages :=
              if st'.memory then
                append_message st'.messages result_str "tool" (some call.id)
              else st'.messages },
          some tl.name)
       | .error _ => (st, some tl.name))
    | _ => (st, Option.none)

/-- `AgentExecutor._process_tool_calls`: dispatch every requested call in
order, collecting the names of the tools actually invoked. -/
def process_tool_calls (tools : List ToolSpec) (st : ExecState)
    (calls : List LLMToolCall) : ExecState × List String :=
  calls.foldl
    (fun acc call =>
      let r := process_one_call tools acc.1 call
      (r.1, acc.2 ++ (r.2.map (fun n => [n])).getD []))
    (st, [])

/-- `AgentExecutor._format_prompt`: substitute the user input into the
prompt template. -/
def format_prompt_str (prompt : String) (input : String) : String :=
  ((prompt.splitOn "\x7binput\x7d").intersperse input).foldl (· ++ ·) ""

/-- The transcript-seeding step at the head of `AgentExecutor.invoke`: when
the prompt defines a `"system"` entry, the formatted system and user
messages are appended (`self._append_message`); otherwise nothing happens. -/
def seed_conversation (prompt : List (String × String)) (messages : List Message)
    (input : String) : List Message :=
  match lookupStr prompt "system" with
  | some sysP =>
    let sys := format_prompt_str sysP input
    let usr := format_prompt_str ((lookupStr prompt "user").getD "") input
    append_message (append_message messages sys "system" Option.none) usr "user" Option.none
  | Option.none => messages

/-- `AgentExecutor.invoke`: seed the transcript (when the prompt defines a
system entry), make exactly one model call, record the assistant reply only
under memory, dispatch any requested tool calls, and return the reply.  The
final component counts the model calls the invocation performed. -/
def invoke (tools : List ToolSpec) (prompt : List (String × String))
    (llm : List Message → LLMResponse) (st : ExecState) (input : String) :
    ExecState × LLMResponse × Nat :=
  let st := { st with messages := seed_conversation prompt st.messages input }
  let response := llm st.messages
  let st :=
    match response.content with
    | some c =>
      if !(chars c).isEmpty && st.memory then
        { st with messages := append_message st.messages c "assistant" Option.none }
      else st
    | Option.none => st
  let st :=
    if !response.tool_calls.isEmpty then (process_tool_calls tools st response.tool_calls).1
    else st
  (st, response, 1)

/-- `AgentExecutor.clear_memory`: under memory, keep only the first system
message (when one exists). -/
def clear_memory (st : ExecState) : ExecState :=
  if st.memory then
    { st with
      messages :=
        match st.messages.find? (fun m => m.role == "system") with
        | some m => [m]
        | Option.none => [] }
  else st

/-- `ToolUsage.add_tool_call`: the ledger's only writer appends one record. -/
def add_tool_call (usage : List ToolCallRec) (tc : ToolCallRec) : List ToolCallRec :=
  usage ++ [tc]

/-- The invariant of claim C10: every tool-role message carries a
`tool_call_id`. -/
def toolMsgsHaveIds (messages : List Message) : Prop :=
  ∀ m ∈ messages, m.role = "tool" → ∃ i, m.tool_call_id = some i

/-! ## Specification predicates and concrete scenario data -/

/-- Per-field success condition of one validation attempt: a present field
carries a value of its declared kind; an absent field is not required. -/
def fieldOk (required : List String) (data : List (String × PyVal))
    (p : String × String) : Prop :=
  match lookupStr data p.1 with
  | some v => validateValue p.2 v = true
  | Option.none => containsStr required p.1 = false

/-- A field schema that is a bare `$ref`, as pydantic emits for a nested or
self-referential model field. -/
def refFieldSchema (name : String) : JSchema :=
  .mk Option.none Option.none Option.none Option.none Option.none Option.none
      Option.none Option.none (some name) Option.none Option.none Option.none

/-- A field schema holding only an `anyOf` union, as pydantic emits for
`Optional[...]` / `Union[...]` fields. -/
def unionFieldSchema (alts : List JSchema) : JSchema :=
  .mk Option.none Option.none Option.none Option.none Option.none (some alts)
      Option.none Option.none Option.none Option.none Option.none Option.none

/-- The `$defs` entry of the self-referential `Node` model
(`Node  :=  name : string, child : Optional[Node]`). -/
def nodeDefSchema : JSchema :=
  .mk (some "object")
    (some [("name", JSchema.basic "string" Option.none),
           ("child", unionFieldSchema [refFieldSchema "Node", JSchema.basic "null" Option.none])])
    (some ["name"]) Option.none Option.none Option.none Option.none Option.none
    Option.none Option.none (some "Node") Option.none

/-- The JSON schema pydantic produces for the `Node` model: the same object
shape at the root, with `Node` in `$defs`. -/
def nodeRootSchema : JSchema :=
  .mk (some "object")
    (some [("name", JSchema.basic "string" Option.none),
           ("child", unionFieldSchema [refFieldSchema "Node", JSchema.basic "null" Option.none])])
    (some ["name"]) Option.none Option.none Option.none Option.none Option.none
    Option.none Option.none (some "Node") (some [("Node", nodeDefSchema)])

/-- The Scenario-A record `(description : string, value : number,
category : string)`, all fields required. -/
def expenseTarget : TargetModel :=
  ⟨[("description", "string"), ("value", "number"), ("category", "string")],
   ["description", "value", "category"]⟩

/-- The Scenario-A raw arguments. -/
def scenarioAKwargs : List (String × PyVal) :=
  [("description", .str "mercado"), ("value", .str "200,50"),
   ("category", .str "Supermercado")]

/-- A registered tool whose `run` succeeds, echoing its arguments. -/
def validTool : ToolSpec := ⟨"valid_tool", fun args => .ok (.dict args)⟩

/-- A model that always answers with plain content and no tool calls. -/
def llmPlainReply : List Message → LLMResponse := fun _ => ⟨some "resposta final", []⟩

/-- A model whose reply carries one requested tool call. -/
def llmToolReply : List Message → LLMResponse :=
  fun _ => ⟨some "pensando", [⟨"id1", "ferramenta", "null"⟩]⟩

/-- A freshly constructed executor state with memory disabled. -/
def freshState : ExecState := ⟨false, [], [], []⟩

/-- The run of claim C3's concrete scenario: one invocation whose model
reply requests a tool call. -/
def c3Run : ExecState × LLMResponse × Nat :=
  invoke [] [("system", "s"), ("user", "u")] llmToolReply freshState "entrada"

/-- The run of claim C8's concrete scenario: one invocation with memory
disabled and a plain content reply. -/
def c8Run : ExecState × LLMResponse × Nat :=
  invoke [] [("system", "Você ajuda"), ("user", "pedido")] llmPlainReply freshState "gasto 10"

/-! ## Supporting lemmas -/

theorem lookupStr_append_some {α : Type} {a b : List (String × α)} {k : String} {v : α}
    (h : lookupStr a k = some v) : lookupStr (a ++ b) k = some v := by
  induction a with
  | nil => simp [lookupStr] at h
  | cons kv rest ih =>
    obtain ⟨k', w⟩ := kv
    by_cases hk : (k' == k) = true
    · simp [lookupStr, hk] at h ⊢
      exact h
    · simp [lookupStr, hk] at h ⊢
      exact ih h

theorem lookupStr_append_none {α : Type} {a : List (String × α)} {k : String}
    (h : lookupStr a k = Option.none) (b : List (String × α)) :
    lookupStr (a ++ b) k = lookupStr b k := by
  induction a with
  | nil => simp
  | cons kv rest ih =>
    obtain ⟨k', w⟩ := kv
    by_cases hk : (k' == k) = true
    · simp [lookupStr, hk] at h
    · simp [lookupStr, hk] at h ⊢
      exact ih h

theorem contains_lookup_isSome {α : Type} (kvs : List (String × α)) (k : String)
    (h : containsStr (kvs.map Prod.fst) k = true) : ∃ v, lookupStr kvs k = some v := by
  induction kvs with
  | nil => simp [containsStr] at h
  | cons kv rest ih =>
    obtain ⟨k', v⟩ := kv
    by_cases hk : (k' == k) = true
    · exact ⟨v, by simp [lookupStr, hk]⟩
    · have h' : containsStr (rest.map Prod.fst) k = true := by
        simp only [containsStr, List.map_cons, List.any_cons, Bool.or_eq_true] at h
        rcases h with h | h
        · exact absurd h hk
        · simpa [containsStr] using h
      obtain ⟨w, hw⟩ := ih h'
      exact ⟨w, by simp [lookupStr, hk, hw]⟩

theorem mem_contains_fst {α : Type} (props : List (String × α)) (p : String × α)
    (hp : p ∈ props) : containsStr (props.map Prod.fst) p.1 = true := by
  simp only [containsStr, List.any_eq_true]
  exact ⟨p.1, List.mem_map_of_mem Prod.fst hp, by simp⟩

theorem field_errors_cons (p : String × String) (rest : List (String × String))
    (required : List String) (data : List (String × PyVal)) :
    field_errors (p :: rest) required data =
      (match lookupStr data p.1 with
       | some v =>
         if validateValue p.2 v then field_errors rest required data
         else (p.1, typeErrorTag p.2) :: field_errors rest required data
       | Option.none =>
         if containsStr required p.1 then
           (p.1, "missing") :: field_errors rest required data
         else field_errors rest required data) := rfl

theorem field_errors_eq_nil_iff (props : List (String × String)) (required : List String)
    (data : List (String × PyVal)) :
    field_errors props required data = [] ↔ ∀ p ∈ props, fieldOk required data p := by
  induction props with
  | nil => simp [field_errors]
  | cons p rest ih =>
    rw [field_errors_cons]
    cases hl : lookupStr data p.1 with
    | none =>
      dsimp only
      by_cases hr : containsStr required p.1 = true
      · rw [if_pos hr]
        constructor
        · intro h
          cases h
        · intro h
          have hfo := h p (List.mem_cons_self p rest)
          simp only [fieldOk, hl] at hfo
          rw [hfo] at hr
          cases hr
      · have hr' : containsStr required p.1 = false := by
          simpa using hr
        rw [if_neg hr, ih]
        constructor
        · intro h q hq
          rcases List.mem_cons.mp hq with rfl | hq'
          · simp only [fieldOk, hl]
            exact hr'
          · exact h q hq'
        · intro h q hq
          exact h q (List.mem_cons_of_mem _ hq)
    | some v =>
      dsimp only
      by_cases hv : validateValue p.2 v = true
      · rw [if_pos hv, ih]
        constructor
        · intro h q hq
          rcases List.mem_cons.mp hq with rfl | hq'
          · simp only [fieldOk, hl]
            exact hv
          · exact h q hq'
        · intro h q hq
          exact h q (List.mem_cons_of_mem _ hq)
      · rw [if_neg hv]
        constructor
        · intro h
          cases h
        · intro h
          have hfo := h p (List.mem_cons_self p rest)
          simp only [fieldOk, hl] at hfo
          exact absurd hfo hv

theorem lookup_inst (props : List (String × String)) (kvs : List (String × PyVal))
    (k : String) :
    lookupStr (props.filterMap (fun p => (lookupStr kvs p.1).map (fun v => (p.1, v)))) k =
      if containsStr (props.map Prod.fst) k then lookupStr kvs k else Option.none := by
  induction props with
  | nil => simp [lookupStr, containsStr]
  | cons p rest ih =>
    have hcc : containsStr (((p :: rest).map Prod.fst)) k =
        ((p.1 == k) || containsStr (rest.map Prod.fst) k) := by
      simp [containsStr]
    cases hl : lookupStr kvs p.1 with
    | none =>
      rw [List.filterMap_cons]
      rw [hl]
      simp only [Option.map_none']
      rw [ih, hcc]
      by_cases hk : (p.1 == k) = true
      · have hkeq : p.1 = k := eq_of_beq hk
        rw [hk, Bool.true_or, if_pos rfl, ← hkeq, hl]
        split <;> rfl
      · have hk' : (p.1 == k) = false := by simpa using hk
        rw [hk', Bool.false_or]
    | some v =>
      rw [List.filterMap_cons, hl]
      simp only [Option.map_some']
      by_cases hk : (p.1 == k) = true
      · have hkeq : p.1 = k := eq_of_beq hk
        rw [lookupStr, if_pos hk, hcc, hk, Bool.true_or, if_pos rfl, ← hkeq, hl]
      · have hk' : (p.1 == k) = false := by simpa using hk
        rw [lookupStr, if_neg (by simp [hk']), ih, hcc, hk', Bool.false_or]

theorem model_validate_ok_validates (t : TargetModel) (d : PyVal)
    (inst : List (String × PyVal)) (h : model_validate t d = .ok inst) :
    fieldErrors t inst = [] := by
  unfold model_validate at h
  cases d with
  | dict kvs =>
    dsimp only at h
    cases hfe : fieldErrors t kvs with
    | cons e rest =>
      rw [hfe] at h
      simp at h
    | nil =>
      rw [hfe] at h
      dsimp only at h
      simp only [Except.ok.injEq] at h
      subst h
      rw [fieldErrors, field_errors_eq_nil_iff]
      intro p hp
      have hl := lookup_inst t.props kvs p.1
      rw [mem_contains_fst t.props p hp, if_pos rfl] at hl
      have horig := (field_errors_eq_nil_iff t.props t.required kvs).mp hfe p hp
      simp only [fieldOk] at horig ⊢
      rw [hl]
      exact horig
  | str s => simp at h
  | int n => simp at h
  | num q => simp at h
  | bool b => simp at h
  | list xs => simp at h
  | none => simp at h

theorem foldlM_ok_of_step {α β : Type} (f : β → α → Except Unit β) (l : List α)
    (hf : ∀ b a, a ∈ l → ∃ b', f b a = .ok b') :
    ∀ init, ∃ out, List.foldlM f init l = .ok out := by
  induction l with
  | nil => intro init; exact ⟨init, rfl⟩
  | cons a rest ih =>
    intro init
    obtain ⟨b', hb⟩ := hf init a (List.mem_cons_self a rest)
    obtain ⟨out, hout⟩ :=
      ih (fun b x hx => hf b x (List.mem_cons_of_mem _ hx)) b'
    refine ⟨out, ?_⟩
    rw [List.foldlM_cons, hb]
    simpa using hout

theorem clean_defensive_dict_ok (t : TargetModel) (kvs : List (String × PyVal))
    (errs : List (String × String)) :
    ∃ out, clean_and_fix_data_defensively t (.dict kvs) errs = .ok out := by
  unfold clean_and_fix_data_defensively
  apply foldlM_ok_of_step
  intro b p _
  dsimp only
  by_cases he : containsStr ((errs.filter (fun e => !(e.1 == ""))).map (fun e => e.1)) p.1 = true
  · rw [if_pos he]
    by_cases hin : containsStr (kvs.map (fun kv => kv.1)) p.1 = true
    · obtain ⟨v, hv⟩ := contains_lookup_isSome kvs p.1 (by simpa [Prod.fst] using hin)
      rw [show pyIn p.1 (.dict kvs) = some true by simp [pyIn, hin]]
      rw [show pyGetItem p.1 (.dict kvs) = some v from by simp [pyGetItem, hv]]
      dsimp only
      cases hc : convert_field_value v p.2 with
      | some conv => exact ⟨_, rfl⟩
      | none =>
        by_cases hr : containsStr t.required p.1 = true
        · rw [if_pos hr]; exact ⟨_, rfl⟩
        · rw [if_neg hr]; exact ⟨_, rfl⟩
    · rw [show pyIn p.1 (.dict kvs) = some false by
        simp only [pyIn]
        congr 1
        simpa using hin]
      dsimp only
      by_cases hr : containsStr t.required p.1 = true
      · rw [if_pos hr]; exact ⟨_, rfl⟩
      · rw [if_neg hr]; exact ⟨_, rfl⟩
  · rw [if_neg he]
    by_cases hin : containsStr (kvs.map (fun kv => kv.1)) p.1 = true
    · obtain ⟨v, hv⟩ := contains_lookup_isSome kvs p.1 (by simpa [Prod.fst] using hin)
      rw [show pyIn p.1 (.dict kvs) = some true by simp [pyIn, hin]]
      rw [show pyGetItem p.1 (.dict kvs) = some v from by simp [pyGetItem, hv]]
      dsimp only
      exact ⟨_, rfl⟩
    · rw [show pyIn p.1 (.dict kvs) = some false by
        simp only [pyIn]
        congr 1
        simpa using hin]
      dsimp only
      exact ⟨_, rfl⟩

theorem safe_dict_ok (t : TargetModel) (kvs : List (String × PyVal)) :
    ∃ out, create_safe_data_from_model t (.dict kvs) = .ok out := by
  unfold create_safe_data_from_model
  apply foldlM_ok_of_step
  intro b p _
  dsimp only
  by_cases hin : containsStr (kvs.map (fun kv => kv.1)) p.1 = true
  · obtain ⟨v, hv⟩ := contains_lookup_isSome kvs p.1 (by simpa [Prod.fst] using hin)
    rw [show pyIn p.1 (.dict kvs) = some true by simp [pyIn, hin]]
    rw [show pyGetItem p.1 (.dict kvs) = some v from by simp [pyGetItem, hv]]
    dsimp only
    cases hc : convert_field_value v p.2 with
    | some conv => exact ⟨_, rfl⟩
    | none => exact ⟨_, rfl⟩
  · rw [show pyIn p.1 (.dict kvs) = some false by
      simp only [pyIn]
      congr 1
      simpa using hin]
    dsimp only
    by_cases hr : containsStr t.required p.1 = true
    · rw [if_pos hr]; exact ⟨_, rfl⟩
    · rw [if_neg hr]; exact ⟨_, rfl⟩

theorem minimal_fold_preserves (props : List (String × String)) (req : List String)
    (k : String) (v : PyVal) :
    ∀ acc, lookupStr acc k = some v →
      lookupStr (req.foldl (minimal_step props) acc) k = some v := by
  induction req with
  | nil => intro acc h; exact h
  | cons r rest ih =>
    intro acc h
    rw [List.foldl_cons]
    apply ih
    unfold minimal_step
    cases lookupStr props r with
    | some ty => exact lookupStr_append_some h
    | none => exact h

theorem minimal_fold_found (props : List (String × String)) (req : List String)
    (k : String) (ty : String) (hp : lookupStr props k = some ty) :
    ∀ acc, containsStr req k = true → lookupStr acc k = Option.none →
      lookupStr (req.foldl (minimal_step props) acc) k =
        some (get_default_value_for_field ty) := by
  induction req with
  | nil => intro acc hreq _; simp [containsStr] at hreq
  | cons r rest ih =>
    intro acc hreq hacc
    rw [List.foldl_cons]
    by_cases hr : (r == k) = true
    · have hrk : r = k := eq_of_beq hr
      subst hrk
      have hstep : minimal_step props acc r = acc ++ [(r, get_default_value_for_field ty)] := by
        unfold minimal_step
        rw [hp]
      rw [hstep]
      apply minimal_fold_preserves
      rw [lookupStr_append_none hacc]
      simp [lookupStr]
    · have hreq' : containsStr rest k = true := by
        simp only [containsStr, List.any_cons, Bool.or_eq_true] at hreq
        rcases hreq with h | h
        · exact absurd h hr
        · simpa [containsStr] using h
      have hacc' : lookupStr (minimal_step props acc r) k = Option.none := by
        unfold minimal_step
        cases lookupStr props r with
        | some ty' =>
          rw [lookupStr_append_none hacc]
          simp [lookupStr, hr]
        | none => exact hacc
      exact ih _ hreq' hacc'

theorem minimal_fold_keys (props : List (String × String)) (req : List String)
    (k : String) (v : PyVal) :
    ∀ acc, lookupStr (req.foldl (minimal_step props) acc) k = some v →
      lookupStr acc k = some v ∨ containsStr req k = true := by
  induction req with
  | nil => intro acc h; exact Or.inl h
  | cons r rest ih =>
    intro acc h
    rw [List.foldl_cons] at h
    rcases ih _ h with hstep | hrest
    · unfold minimal_step at hstep
      by_cases hr : (r == k) = true
      · right
        simp [containsStr, hr]
      · left
        cases hpr : lookupStr props r with
        | some ty =>
          rw [hpr] at hstep
          cases hacc : lookupStr acc k with
          | some w =>
            rw [lookupStr_append_some hacc] at hstep
            exact hstep
          | none =>
            rw [lookupStr_append_none hacc] at hstep
            simp [lookupStr, hr] at hstep
        | none =>
          rw [hpr] at hstep
          exact hstep
    · right
      have hcc : containsStr (r :: rest) k = ((r == k) || containsStr rest k) := by
        simp [containsStr]
      rw [hcc, hrest, Bool.or_true]

theorem lookup_of_nodup (props : List (String × String))
    (hnd : (props.map Prod.fst).Nodup) (p : String × String) (hp : p ∈ props) :
    lookupStr props p.1 = some p.2 := by
  induction props with
  | nil => cases hp
  | cons q rest ih =>
    rw [List.map_cons] at hnd
    obtain ⟨hq, hrest⟩ := List.nodup_cons.mp hnd
    rcases List.mem_cons.mp hp with rfl | hp'
    · obtain ⟨k', v'⟩ := p
      simp [lookupStr]
    · obtain ⟨k', v'⟩ := q
      have hne : (k' == p.1) = false := by
        rw [beq_eq_false_iff_ne]
        intro hkeq
        apply hq
        show k' ∈ List.map Prod.fst rest
        rw [hkeq]
        exact List.mem_map_of_mem Prod.fst hp'
      simp only [lookupStr]
      rw [if_neg (by simp [hne])]
      exact ih hrest hp'

theorem minimal_instance_validates (t : TargetModel)
    (hnd : (t.props.map Prod.fst).Nodup)
    (hdef : ∀ p ∈ t.props, containsStr t.required p.1 = true →
        validateValue p.2 (get_default_value_for_field p.2) = true) :
    fieldErrors t (create_minimal_valid_instance t) = [] := by
  rw [fieldErrors, field_errors_eq_nil_iff]
  intro p hp
  by_cases hr : containsStr t.required p.1 = true
  · have hlp : lookupStr t.props p.1 = some p.2 := lookup_of_nodup _ hnd p hp
    have hmin : lookupStr (create_minimal_valid_instance t) p.1 =
        some (get_default_value_for_field p.2) := by
      unfold create_minimal_valid_instance
      exact minimal_fold_found t.props t.required p.1 p.2 hlp [] hr rfl
    simp only [fieldOk, hmin]
    exact hdef p hp hr
  · cases hl : lookupStr (create_minimal_valid_instance t) p.1 with
    | none =>
      simp only [fieldOk, hl]
      simpa using hr
    | some v =>
      exfalso
      unfold create_minimal_valid_instance at hl
      rcases minimal_fold_keys t.props t.required p.1 v [] hl with habs | hin
      · simp [lookupStr] at habs
      · exact hr hin

theorem parse_to_model_dict_total (t : TargetModel) (pkvs : List (String × PyVal))
    (hnd : (t.props.map Prod.fst).Nodup)
    (hdef : ∀ p ∈ t.props, containsStr t.required p.1 = true →
        validateValue p.2 (get_default_value_for_field p.2) = true) :
    ∃ inst, parse_to_model t (.dict pkvs) false = .ok inst ∧ fieldErrors t inst = [] := by
  unfold parse_to_model
  cases hv : model_validate t (.dict pkvs) with
  | ok inst => exact ⟨inst, rfl, model_validate_ok_validates t _ inst hv⟩
  | error errs =>
    dsimp only
    rw [if_neg (by simp)]
    unfold parse_with_recovery
    obtain ⟨cleaned, hcl⟩ := clean_defensive_dict_ok t pkvs errs
    rw [hcl]
    dsimp only
    cases hv1 : model_validate t (.dict cleaned) with
    | ok inst => exact ⟨inst, rfl, model_validate_ok_validates t _ inst hv1⟩
    | error e1 =>
      dsimp only
      obtain ⟨safe, hsf⟩ := safe_dict_ok t pkvs
      rw [hsf]
      dsimp only
      cases hv2 : model_validate t (.dict safe) with
      | ok inst => exact ⟨inst, rfl, model_validate_ok_validates t _ inst hv2⟩
      | error e2 =>
        dsimp only
        have hmin : fieldErrors t (create_minimal_valid_instance t) = [] :=
          minimal_instance_validates t hnd hdef
        have hv3 : model_validate t (.dict (create_minimal_valid_instance t)) =
            .ok (t.props.filterMap
              (fun p => (lookupStr (create_minimal_valid_instance t) p.1).map
                (fun v => (p.1, v)))) := by
          unfold model_validate
          dsimp only
          rw [hmin]
        rw [hv3]
        exact ⟨_, rfl, model_validate_ok_validates t _ _ hv3⟩

theorem run_nonstrict_dict_total (t : TargetModel) (kwargs : List (String × PyVal))
    (hk : kwargs ≠ []) (pkvs : List (String × PyVal))
    (hprep : prepare_data_for_model kwargs = .dict pkvs)
    (hnd : (t.props.map Prod.fst).Nodup)
    (hdef : ∀ p ∈ t.props, containsStr t.required p.1 = true →
        validateValue p.2 (get_default_value_for_field p.2) = true) :
    ∃ inst, PydanticParserTool_run t kwargs false = .ok inst ∧ fieldErrors t inst = [] := by
  obtain ⟨inst, hpt, hval⟩ := parse_to_model_dict_total t pkvs hnd hdef
  refine ⟨inst, ?_, hval⟩
  unfold PydanticParserTool_run
  rw [if_neg (by simp [hk]), hprep, hpt]

/-! ## Claim theorems -/

/-- C2, counterexample: the claim says non-strict parsing never raises for
any raw input including the empty map, but `_run` raises
`PydanticParsingError` ("Nenhum dado recebido para parsing") the moment it
receives no keyword data — even for a target whose every required field has
a representable default. -/
theorem c2_empty_map_raises :
    PydanticParserTool_run expenseTarget [] false =
      .error "Falha no parsing: Nenhum dado recebido para parsing" := rfl

/-- C2, amended: in non-strict mode, for a target whose every required field
has a representable default (and whose field names are unique, as pydantic
guarantees), parsing returns an instance that validates against the target
for every non-empty raw keyword map whose prepared form is a dict — which
covers every map of two or more fields, every non-string single argument,
and every single string argument that is not valid JSON.  Excluded are
exactly the raw inputs on which the code raises: the empty map, and a lone
string argument that JSON-decodes to a non-dict value (the recovery
helpers then raise a TypeError that escapes the cascade). -/
theorem c2_nonstrict_total_on_prepared_dicts (t : TargetModel)
    (kwargs : List (String × PyVal)) (hk : kwargs ≠ [])
    (pkvs : List (String × PyVal))
    (hprep : prepare_data_for_model kwargs = .dict pkvs)
    (hnd : (t.props.map Prod.fst).Nodup)
    (hdef : ∀ p ∈ t.props, containsStr t.required p.1 = true →
        validateValue p.2 (get_default_value_for_field p.2) = true) :
    ∃ inst, PydanticParserTool_run t kwargs false = .ok inst ∧
      fieldErrors t inst = [] :=
  run_nonstrict_dict_total t kwargs hk pkvs hprep hnd hdef

/-- C2, witness: the amended theorem applied to the Scenario-A target and a
wrong-typed single-field input. -/
theorem c2_witness :
    ∃ inst, PydanticParserTool_run expenseTarget [("value", .int 7)] false = .ok inst ∧
      fieldErrors expenseTarget inst = [] :=
  c2_nonstrict_total_on_prepared_dicts expenseTarget [("value", .int 7)]
    (by simp) [("value", .int 7)]
    (by simp [prepare_data_for_model, sanitize_data_recursively])
    (by simp [expenseTarget])
    (by
      intro p hp _
      simp only [expenseTarget, List.mem_cons, List.not_mem_nil, or_false] at hp
      rcases hp with rfl | rfl | rfl <;> rfl)

/-- C4, counterexample: the claim says a string that fails JSON decoding
does not make non-strict parsing fail immediately, but
`OpenAIToolResponseParser.parse_tool_response` raises `ToolParsingError`
("Argumentos não são JSON válido") at once on decode failure, with
`strict=False`. -/
theorem c4_decode_failure_raises_immediately :
    parse_tool_response expenseTarget (.str "mercado por 200,50") false =
      .error "Argumentos não são JSON válido" := rfl

/-- C4, amended: the two parsing paths disagree on this point.
`PydanticParserTool` behaves as claimed: a lone string argument that fails
JSON decoding is carried on as plain data (the prepared input is the
sanitized keyword map itself) and the recovery cascade still produces a
validating instance whenever the target's required fields have
representable defaults.  `OpenAIToolResponseParser.parse_tool_response`,
by contrast, fails immediately on decode failure even in non-strict mode. -/
theorem c4_parser_tool_proceeds_on_decode_failure (t : TargetModel)
    (k s : String) (hjson : jsonLoads s = Option.none)
    (hnd : (t.props.map Prod.fst).Nodup)
    (hdef : ∀ p ∈ t.props, containsStr t.required p.1 = true →
        validateValue p.2 (get_default_value_for_field p.2) = true) :
    prepare_data_for_model [(k, .str s)] =
      sanitize_data_recursively (.dict [(k, .str s)]) ∧
    ∃ inst, PydanticParserTool_run t [(k, .str s)] false = .ok inst ∧
      fieldErrors t inst = [] := by
  have hprep : prepare_data_for_model [(k, .str s)] =
      sanitize_data_recursively (.dict [(k, .str s)]) := by
    unfold prepare_data_for_model
    dsimp only
    rw [hjson]
  refine ⟨hprep, ?_⟩
  have hsan : sanitize_data_recursively (.dict [(k, .str s)]) =
      .dict ([(k, PyVal.str s)].attach.map
        (fun kv => (kv.1.1, sanitize_data_recursively kv.1.2))) := by
    rw [sanitize_data_recursively]
  exact run_nonstrict_dict_total t [(k, .str s)] (by simp) _
    (hprep.trans hsan) hnd hdef

/-- C4, witness: the amended theorem at a concrete garbage string and the
Scenario-A target. -/
theorem c4_witness :
    prepare_data_for_model [("data", .str "mercado por 200,50")] =
      sanitize_data_recursively (.dict [("data", .str "mercado por 200,50")]) ∧
    ∃ inst, PydanticParserTool_run expenseTarget
        [("data", .str "mercado por 200,50")] false = .ok inst ∧
      fieldErrors expenseTarget inst = [] :=
  c4_parser_tool_proceeds_on_decode_failure expenseTarget "data" "mercado por 200,50"
    rfl (by simp [expenseTarget])
    (by
      intro p hp _
      simp only [expenseTarget, List.mem_cons, List.not_mem_nil, or_false] at hp
      rcases hp with rfl | rfl | rfl <;> rfl)

/-- C5: the cycle-guard state never leaks between independent top-level
conversions — `convert` clears `visited_refs` and resets `current_depth`
on entry, so two converters with the same recursion limit produce identical
results regardless of their incoming guard state, and each result equals
the result of a run in isolation (fresh guard state). -/
theorem c5_guard_state_never_leaks (s₁ s₂ : ConverterState) (m : JSchema)
    (h : s₁.max_depth = s₂.max_depth) :
    converterConvert s₁ m = converterConvert s₂ m ∧
    converterConvert s₁ m = converterConvert ⟨s₁.max_depth, [], 0⟩ m := by
  constructor
  · unfold converterConvert
    rw [h]
  · unfold converterConvert
    rfl

/-- C5, witness: a converter with polluted guard state agrees with a fresh
one on the self-referential `Node` schema. -/
theorem c5_witness :
    converterConvert ⟨10, ["Node", "Other"], 7⟩ nodeRootSchema =
      converterConvert ⟨10, [], 0⟩ nodeRootSchema ∧
    converterConvert ⟨10, ["Node", "Other"], 7⟩ nodeRootSchema =
      converterConvert ⟨10, [], 0⟩ nodeRootSchema :=
  ⟨(c5_guard_state_never_leaks ⟨10, ["Node", "Other"], 7⟩ ⟨10, [], 0⟩ nodeRootSchema rfl).1,
   (c5_guard_state_never_leaks ⟨10, ["Node", "Other"], 7⟩ ⟨10, [], 0⟩ nodeRootSchema rfl).2⟩

/-- C9: Scenario A — non-strict parsing of
`description="mercado", value="200,50", category="Supermercado"` against
`(description : string, value : number, category : string)` succeeds with
no error, and the instance's `value` is the rational 401/2, that is 200.5:
the comma is treated as the decimal separator. -/
theorem c9_comma_decimal_scenario :
    PydanticParserTool_run expenseTarget scenarioAKwargs false =
      .ok [("description", .str "mercado"), ("value", .num (mkRat 401 2)),
           ("category", .str "Supermercado")] ∧
    (mkRat 401 2 : Rat) = 200.5 := by
  constructor
  · have hprep : prepare_data_for_model scenarioAKwargs = .dict scenarioAKwargs := by
      simp [prepare_data_for_model, scenarioAKwargs, sanitize_data_recursively, chars,
        pyIsDigit, digitsVal]
    unfold PydanticParserTool_run
    rw [hprep]
    rfl
  · norm_num [Rat.mkRat_eq_div]

/-- C1: for every record-type schema (arbitrary `JSchema` with arbitrary
`$defs`, so including directly and mutually recursive types of unbounded
depth) and every non-negative recursion limit, `convert_to_openai_tool`
returns a wire schema that passes `_validate_openai_schema` — termination
is witnessed by `resolve_field_schema` being a total function — and a
`$ref` branch whose definition is already being resolved is replaced by the
bounded `"Referência circular detectada"` placeholder instead of being
expanded. -/
theorem c1_conversion_total_and_valid :
    (∀ (modelName : String) (modelSchema : JSchema) (tn td : Option String)
        (maxDepth : Int), 0 ≤ maxDepth →
        ∃ fd, convert_to_openai_tool modelName modelSchema tn td maxDepth = .ok fd ∧
          validate_openai_schema fd.parameters = Option.none) ∧
    (∀ (defs : List (String × JSchema)) (visited : List String) (name : String),
        containsStr visited name = true →
        resolve_field_schema defs visited (refFieldSchema name) =
          circularPlaceholder name) := by
  constructor
  · intro modelName modelSchema tn td maxDepth hd
    have hconv : converterConvert ⟨maxDepth, [], 0⟩ modelSchema =
        JSchema.mk (some "object")
          (some ((modelSchema.properties?.getD []).map
            (fun p => (p.1, resolve_field_schema (modelSchema.defs?.getD []) [] p.2))))
          (some (((modelSchema.properties?.getD []).filter
            (fun p => containsStr ((modelSchema.required?).getD []) p.1)).map
            (fun p => p.1)))
          Option.none Option.none Option.none Option.none Option.none Option.none
          Option.none Option.none Option.none := by
      unfold converterConvert convert_schema
      dsimp only
      rw [if_neg (show ¬((0 : Int) > maxDepth) by omega)]
    have hvalid : validate_openai_schema (converterConvert ⟨maxDepth, [], 0⟩ modelSchema) =
        Option.none := by
      rw [hconv]
      rfl
    refine ⟨⟨tn.getD ("parse_" ++ strOfChars (lowerChars (chars modelName))),
             td.getD ("Parse and structure data according to " ++ modelName ++ " schema"),
             converterConvert ⟨maxDepth, [], 0⟩ modelSchema⟩, ?_, hvalid⟩
    simp only [convert_to_openai_tool]
    rw [hvalid]
  · intro defs visited name h
    rw [refFieldSchema, resolve_field_schema]
    cases hb : containsStr visited name with
    | true => rfl
    | false =>
      rw [h] at hb
      simp at hb

/-- C1, witness: the theorem applied to the self-referential `Node` schema
at the default recursion limit, and to a `$ref` re-encountered during its
own resolution. -/
theorem c1_witness :
    (∃ fd, convert_to_openai_tool "Node" nodeRootSchema Option.none Option.none 10 =
        .ok fd ∧ validate_openai_schema fd.parameters = Option.none) ∧
    resolve_field_schema [("Node", nodeDefSchema)] ["Node"] (refFieldSchema "Node") =
      circularPlaceholder "Node" :=
  ⟨c1_conversion_total_and_valid.1 "Node" nodeRootSchema Option.none Option.none 10
      (by norm_num),
   c1_conversion_total_and_valid.2 [("Node", nodeDefSchema)] ["Node"] "Node" rfl⟩

/-- C6: a union-typed field (`anyOf`) collapses to the resolved schema of
its first non-null alternative (the first alternative whose `type` is not
`"null"`); when every alternative is null — or the union is empty — the
field degrades to a string-typed placeholder. -/
theorem c6_union_collapse (defs : List (String × JSchema)) (visited : List String)
    (alts : List JSchema) :
    (∀ u, alts.find? (fun u => !(JSchema.type? u == some "null")) = some u →
        resolve_field_schema defs visited (unionFieldSchema alts) =
          resolve_field_schema defs visited u) ∧
    ((∀ u ∈ alts, JSchema.type? u = some "null") →
        ∃ d, resolve_field_schema defs visited (unionFieldSchema alts) =
          JSchema.basic "string" (some d)) := by
  have hun : resolve_field_schema defs visited (unionFieldSchema alts) =
      (match alts.find? (fun u => !(JSchema.type? u == some "null")) with
       | some u => resolve_field_schema defs visited u
       | Option.none =>
         if alts.isEmpty then JSchema.basic "string" (some "Union type sem opções válidas")
         else JSchema.basic "string" (some "Union type com opções")) := by
    rw [unionFieldSchema, resolve_field_schema]
    rw [if_neg (by simp), if_neg (by simp), if_neg (by simp), if_pos (by simp)]
    dsimp only
    cases hf : alts.find? (fun u => !(JSchema.type? u == some "null")) with
    | some u => rfl
    | none => rfl
  constructor
  · intro u hu
    rw [hun, hu]
  · intro hnull
    have hfn : alts.find? (fun u => !(JSchema.type? u == some "null")) = Option.none := by
      rw [List.find?_eq_none]
      intro u hu
      rw [hnull u hu]
      simp
    rw [hun, hfn]
    cases he : alts.isEmpty with
    | true => exact ⟨_, by rw [if_pos rfl]⟩
    | false => exact ⟨_, by rw [if_neg (by simp [he])]⟩

/-- C6, witness: a nullable-int union collapses to the int alternative, and
an all-null union degrades to a string placeholder. -/
theorem c6_witness :
    resolve_field_schema [] [] (unionFieldSchema
        [JSchema.basic "null" Option.none, JSchema.basic "integer" Option.none]) =
      resolve_field_schema [] [] (JSchema.basic "integer" Option.none) ∧
    ∃ d, resolve_field_schema [] [] (unionFieldSchema [JSchema.basic "null" Option.none]) =
      JSchema.basic "string" (some d) :=
  ⟨(c6_union_collapse [] [] _).1 (JSchema.basic "integer" Option.none) rfl,
   (c6_union_collapse [] [] _).2 (by
      intro u hu
      simp only [List.mem_singleton] at hu
      subst hu
      rfl)⟩

theorem append_message_keeps_ids (msgs : List Message) (text role : String)
    (i : Option String) (h : toolMsgsHaveIds msgs) :
    toolMsgsHaveIds (append_message msgs text role i) := by
  unfold append_message
  by_cases hc : (role == "tool" && !truthyId i) = true
  · rw [if_pos hc]
    exact h
  · rw [if_neg hc]
    intro m hm hrole
    rcases List.mem_append.mp hm with hm' | hm'
    · exact h m hm' hrole
    · have hmi : m = format_message_for_llm text role i := by simpa using hm'
      subst hmi
      have hrr : role = "tool" := by
        simpa [format_message_for_llm] using hrole
      subst hrr
      have htr : truthyId i = true := by
        rcases ht : truthyId i with _ | _
        · exact absurd (by simp [ht]) hc
        · rfl
      cases i with
      | none => simp [truthyId] at htr
      | some s => exact ⟨s, by simp [format_message_for_llm, htr]⟩

theorem process_one_call_keeps_ids (tools : List ToolSpec) (st : ExecState)
    (call : LLMToolCall) (h : toolMsgsHaveIds st.messages) :
    toolMsgsHaveIds ((process_one_call tools st call).1).messages := by
  unfold process_one_call
  cases tools.find? (fun tl => tl.name == call.name) with
  | none => exact h
  | some tl =>
    dsimp only
    cases jsonLoads call.arguments with
    | none => exact h
    | some v =>
      cases v with
      | dict args =>
        dsimp only
        cases tl.impl args with
        | error e => exact h
        | ok result =>
          dsimp only
          cases hm : st.memory with
          | false =>
            rw [if_neg (by simp)]
            exact h
          | true =>
            rw [if_pos rfl]
            exact append_message_keeps_ids _ _ _ _ h
      | str s => exact h
      | int n => exact h
      | num q => exact h
      | bool b => exact h
      | list xs => exact h
      | none => exact h

theorem foldl_preserves {α β : Type} (f : β → α → β) (P : β → Prop)
    (hf : ∀ b a, P b → P (f b a)) :
    ∀ (l : List α) (b : β), P b → P (l.foldl f b) := by
  intro l
  induction l with
  | nil => intro b hb; exact hb
  | cons a rest ih =>
    intro b hb
    rw [List.foldl_cons]
    exact ih _ (hf b a hb)

theorem process_tool_calls_keeps_ids (tools : List ToolSpec) (st : ExecState)
    (calls : List LLMToolCall) (h : toolMsgsHaveIds st.messages) :
    toolMsgsHaveIds ((process_tool_calls tools st calls).1).messages := by
  unfold process_tool_calls
  have key : ∀ (cs : List LLMToolCall) (acc : ExecState × List String),
      toolMsgsHaveIds acc.1.messages →
      toolMsgsHaveIds ((cs.foldl
        (fun acc call =>
          let r := process_one_call tools acc.1 call
          (r.1, acc.2 ++ (r.2.map (fun n => [n])).getD [])) acc).1).messages := by
    intro cs
    induction cs with
    | nil => intro acc ha; exact ha
    | cons c rest ih =>
      intro acc ha
      rw [List.foldl_cons]
      exact ih _ (process_one_call_keeps_ids tools acc.1 c ha)
  exact key calls (st, []) h

theorem invoke_keeps_ids (tools : List ToolSpec) (prompt : List (String × String))
    (llm : List Message → LLMResponse) (st : ExecState) (input : String)
    (h : toolMsgsHaveIds st.messages) :
    toolMsgsHaveIds ((invoke tools prompt llm st input).1).messages := by
  have hseed : toolMsgsHaveIds (seed_conversation prompt st.messages input) := by
    unfold seed_conversation
    cases lookupStr prompt "system" with
    | none => exact h
    | some sysP =>
      exact append_message_keeps_ids _ _ _ _ (append_message_keeps_ids _ _ _ _ h)
  unfold invoke
  dsimp only
  cases (llm (seed_conversation prompt st.messages input)).content with
  | none =>
    dsimp only
    cases he : (llm (seed_conversation prompt st.messages input)).tool_calls.isEmpty with
    | true =>
      show toolMsgsHaveIds (seed_conversation prompt st.messages input)
      exact hseed
    | false =>
      show toolMsgsHaveIds ((process_tool_calls tools
          { st with messages := seed_conversation prompt st.messages input }
          ((llm (seed_conversation prompt st.messages input)).tool_calls)).1).messages
      exact process_tool_calls_keeps_ids _ _ _ hseed
  | some c =>
    dsimp only
    cases hcm : (!(chars c).isEmpty && st.memory) with
    | false =>
      cases he : (llm (seed_conversation prompt st.messages input)).tool_calls.isEmpty with
      | true =>
        show toolMsgsHaveIds (seed_conversation prompt st.messages input)
        exact hseed
      | false =>
        show toolMsgsHaveIds ((process_tool_calls tools
            { st with messages := seed_conversation prompt st.messages input }
            ((llm (seed_conversation prompt st.messages input)).tool_calls)).1).messages
        exact process_tool_calls_keeps_ids _ _ _ hseed
    | true =>
      cases he : (llm (seed_conversation prompt st.messages input)).tool_calls.isEmpty with
      | true =>
        show toolMsgsHaveIds (append_message
          (seed_conversation prompt st.messages input) c "assistant" Option.none)
        exact append_message_keeps_ids _ _ _ _ hseed
      | false =>
        show toolMsgsHaveIds ((process_tool_calls tools
            { st with messages := (append_message
                (seed_conversation prompt st.messages input) c "assistant" Option.none) }
            ((llm (seed_conversation prompt st.messages input)).tool_calls)).1).messages
        exact process_tool_calls_keeps_ids _ _ _
          (append_message_keeps_ids (seed_conversation prompt st.messages input)
            c "assistant" Option.none hseed)

theorem clear_memory_keeps_ids (st : ExecState) (h : toolMsgsHaveIds st.messages) :
    toolMsgsHaveIds (clear_memory st).messages := by
  unfold clear_memory
  by_cases hm : st.memory = true
  · rw [if_pos hm]
    cases hf : st.messages.find? (fun m => m.role == "system") with
    | none =>
      intro m hm' _
      simp at hm'
    | some m =>
      intro m' hm' hrole
      have hm'' : m' = m := by simpa using hm'
      subst hm''
      have := List.find?_some hf
      have hsys : m'.role = "system" := by simpa using this
      rw [hrole] at hsys
      exact absurd hsys (by decide)
  · rw [if_neg hm]
    exact h

/-- C10: every tool-role message in the conversation carries a
`tool_call_id`.  An append request with role `"tool"` and no (or empty)
`tool_call_id` is silently dropped, leaving the message list unchanged, and
the invariant is preserved by every message-mutating operation of the
execution loop: `_append_message`, `_process_tool_calls`, `invoke` and
`clear_memory`. -/
theorem c10_tool_messages_carry_ids :
    (∀ (msgs : List Message) (text : String) (i : Option String),
        truthyId i = false → append_message msgs text "tool" i = msgs) ∧
    (∀ (msgs : List Message) (text role : String) (i : Option String),
        toolMsgsHaveIds msgs → toolMsgsHaveIds (append_message msgs text role i)) ∧
    (∀ (tools : List ToolSpec) (st : ExecState) (calls : List LLMToolCall),
        toolMsgsHaveIds st.messages →
        toolMsgsHaveIds ((process_tool_calls tools st calls).1).messages) ∧
    (∀ (tools : List ToolSpec) (prompt : List (String × String))
        (llm : List Message → LLMResponse) (st : ExecState) (input : String),
        toolMsgsHaveIds st.messages →
        toolMsgsHaveIds ((invoke tools prompt llm st input).1).messages) ∧
    (∀ st : ExecState, toolMsgsHaveIds st.messages →
        toolMsgsHaveIds (clear_memory st).messages) := by
  refine ⟨?_, ?_, ?_, ?_, ?_⟩
  · intro msgs text i hi
    unfold append_message
    rw [if_pos (by simp [hi])]
  · intro msgs text role i h
    exact append_message_keeps_ids msgs text role i h
  · intro tools st calls h
    exact process_tool_calls_keeps_ids tools st calls h
  · intro tools prompt llm st input h
    exact invoke_keeps_ids tools prompt llm st input h
  · intro st h
    exact clear_memory_keeps_ids st h

/-- C10, witness: the dropped tool-append at a concrete input, and the
invariant after a concrete invocation. -/
theorem c10_witness :
    append_message [] "resultado" "tool" Option.none = [] ∧
    toolMsgsHaveIds ((invoke [] [("system", "s")] llmPlainReply freshState "x").1).messages :=
  ⟨c10_tool_messages_carry_ids.1 [] "resultado" Option.none rfl,
   c10_tool_messages_carry_ids.2.2.2.1 [] [("system", "s")] llmPlainReply freshState "x"
     (fun m hm => absurd hm (List.not_mem_nil m))⟩

/-- C3, counterexample: the claim says that after dispatching the tool calls
of a reply the loop issues at least one further model call and reaches DONE
only on a reply without tool calls; but on a reply carrying one tool call
the concrete run performs exactly one model call in total and returns that
very reply — tool calls included — as its output. -/
theorem c3_single_model_call_despite_tool_calls :
    c3Run.2.2 = 1 ∧ c3Run.2.1.tool_calls.length = 1 := ⟨rfl, rfl⟩

/-- C3, amended: `invoke` is a single-round step, not a loop: every
invocation issues exactly one model call, dispatches the reply's tool calls
(if any) in order, and returns that same reply as its output whether or not
it contains tool calls — it never returns to the model afterwards. -/
theorem c3_amended_single_round (tools : List ToolSpec)
    (prompt : List (String × String)) (llm : List Message → LLMResponse)
    (st : ExecState) (input : String) :
    (invoke tools prompt llm st input).2.2 = 1 ∧
    (invoke tools prompt llm st input).2.1 =
      llm (seed_conversation prompt st.messages input) :=
  ⟨rfl, rfl⟩

/-- C7: when a reply carries exactly two tool calls and one names a tool
that is not registered, the loop invokes only the valid tool (the unknown
name is skipped without aborting the round) and the ledger ends with
exactly one recorded ToolCall — in `tool_calls` and in the appended
ToolUsage snapshot alike. -/
theorem c7_unknown_tool_skipped (tname uname : String)
    (hne : (tname == uname) = false)
    (impl : List (String × PyVal) → Except String PyVal)
    (uid vid uargs vargs : String) (args : List (String × PyVal))
    (hdec : jsonLoads vargs = some (.dict args))
    (res : PyVal) (himpl : impl args = .ok res)
    (st : ExecState) (hc : st.tool_calls = []) (hu : st.tool_usages = []) :
    (process_tool_calls [⟨tname, impl⟩] st
        [⟨uid, uname, uargs⟩, ⟨vid, tname, vargs⟩]).2 = [tname] ∧
    (process_tool_calls [⟨tname, impl⟩] st
        [⟨uid, uname, uargs⟩, ⟨vid, tname, vargs⟩]).1.tool_calls =
      [⟨tname, args, res⟩] ∧
    (process_tool_calls [⟨tname, impl⟩] st
        [⟨uid, uname, uargs⟩, ⟨vid, tname, vargs⟩]).1.tool_usages =
      [[⟨tname, args, res⟩]] := by
  have hfind1 : (([⟨tname, impl⟩] : List ToolSpec).find?
      (fun tl => tl.name == uname)) = Option.none := by
    simp [List.find?, hne]
  have hfind2 : (([⟨tname, impl⟩] : List ToolSpec).find?
      (fun tl => tl.name == tname)) = some ⟨tname, impl⟩ := by
    simp [List.find?]
  unfold process_tool_calls
  rw [List.foldl_cons, List.foldl_cons, List.foldl_nil]
  unfold process_one_call
  dsimp only
  rw [hfind1]
  dsimp only
  rw [hfind2, hdec]
  dsimp only
  rw [himpl]
  dsimp only
  rw [hc, hu]
  refine ⟨?_, ?_, ?_⟩ <;> simp

/-- C7, witness: the theorem at a concrete unknown name, valid tool and
decodable arguments. -/
theorem c7_witness :
    (process_tool_calls [validTool] freshState
        [⟨"id1", "unknown_tool", "x"⟩, ⟨"id2", "valid_tool", "\x7b\x7d"⟩]).2 = ["valid_tool"] ∧
    (process_tool_calls [validTool] freshState
        [⟨"id1", "unknown_tool", "x"⟩, ⟨"id2", "valid_tool", "\x7b\x7d"⟩]).1.tool_calls =
      [⟨"valid_tool", [], .dict []⟩] ∧
    (process_tool_calls [validTool] freshState
        [⟨"id1", "unknown_tool", "x"⟩, ⟨"id2", "valid_tool", "\x7b\x7d"⟩]).1.tool_usages =
      [[⟨"valid_tool", [], .dict []⟩]] :=
  c7_unknown_tool_skipped "valid_tool" "unknown_tool" rfl (fun args => .ok (.dict args))
    "id1" "id2" "x" "\x7b\x7d" [] rfl (.dict []) rfl freshState rfl rfl

/-- C8, counterexample: with memory disabled, the claimed transcript of
exactly one system + one user + one assistant message does not arise — the
assistant reply is never recorded, so a full invocation leaves exactly the
two seeded messages. -/
theorem c8_no_assistant_recorded :
    c8Run.1.messages.map Message.role = ["system", "user"] ∧
    c8Run.1.messages.length = 2 := ⟨rfl, rfl⟩

/-- C8, amended: with memory retention disabled, the executor records only
the seeded system and user messages of each invocation (the assistant reply
is returned but never appended), and the message list persists on the
executor across invocations instead of being rebuilt: two sequential
invocations with inputs `i1`, `i2` leave the four messages
`system(i1), user(i1), system(i2), user(i2)`, in order. -/
theorem c8_amended_memoryless_transcript (prompt : List (String × String))
    (sysP usrP : String)
    (h1 : lookupStr prompt "system" = some sysP)
    (h2 : lookupStr prompt "user" = some usrP)
    (tools : List ToolSpec) (llm1 llm2 : List Message → LLMResponse)
    (hl1 : ∀ msgs, (llm1 msgs).tool_calls = [])
    (hl2 : ∀ msgs, (llm2 msgs).tool_calls = [])
    (i1 i2 : String) :
    ((invoke tools prompt llm2
        ((invoke tools prompt llm1 ⟨false, [], [], []⟩ i1).1) i2).1).messages =
      [format_message_for_llm (format_prompt_str sysP i1) "system" Option.none,
       format_message_for_llm (format_prompt_str usrP i1) "user" Option.none,
       format_message_for_llm (format_prompt_str sysP i2) "system" Option.none,
       format_message_for_llm (format_prompt_str usrP i2) "user" Option.none] := by
  have hseed : ∀ (msgs : List Message) (i : String),
      seed_conversation prompt msgs i =
        msgs ++ [format_message_for_llm (format_prompt_str sysP i) "system" Option.none,
                 format_message_for_llm (format_prompt_str usrP i) "user" Option.none] := by
    intro msgs i
    unfold seed_conversation
    rw [h1]
    dsimp only
    rw [h2]
    simp only [Option.getD_some]
    unfold append_message
    rw [if_neg (by simp), if_neg (by simp)]
    rw [List.append_assoc]
    rfl
  have hstep : ∀ (llm : List Message → LLMResponse),
      (∀ msgs, (llm msgs).tool_calls = []) →
      ∀ (st : ExecState), st.memory = false → ∀ i,
      ((invoke tools prompt llm st i).1).messages =
        seed_conversation prompt st.messages i ∧
      ((invoke tools prompt llm st i).1).memory = false := by
    intro llm hl st hm i
    unfold invoke
    dsimp only
    cases (llm (seed_conversation prompt st.messages i)).content with
    | none =>
      dsimp only
      rw [hl]
      exact ⟨rfl, hm⟩
    | some c =>
      dsimp only
      rw [hm, Bool.and_false]
      rw [hl]
      exact ⟨rfl, rfl⟩
  obtain ⟨hm1, hmem1⟩ := hstep llm1 hl1 ⟨false, [], [], []⟩ rfl i1
  obtain ⟨hm2, _⟩ := hstep llm2 hl2 _ hmem1 i2
  rw [hm2, hseed, hm1, hseed]
  simp

/-- C8, witness: the amended theorem at a concrete prompt, two constant
model replies and two different inputs. -/
theorem c8_witness :
    ((invoke [] [("system", "S"), ("user", "U")]
        (fun _ => ⟨some "r2", []⟩)
        ((invoke [] [("system", "S"), ("user", "U")]
          (fun _ => ⟨some "r1", []⟩) ⟨false, [], [], []⟩ "in1").1) "in2").1).messages =
      [format_message_for_llm (format_prompt_str "S" "in1") "system" Option.none,
       format_message_for_llm (format_prompt_str "U" "in1") "user" Option.none,
       format_message_for_llm (format_prompt_str "S" "in2") "system" Option.none,
       format_message_for_llm (format_prompt_str "U" "in2") "user" Option.none] :=
  c8_amended_memoryless_transcript [("system", "S"), ("user", "U")] "S" "U" rfl rfl
    [] (fun _ => ⟨some "r1", []⟩) (fun _ => ⟨some "r2", []⟩)
    (fun _ => rfl) (fun _ => rfl) "in1" "in2"

end FA
